import Mathlib

/-!
# Credentia: the mock ledger engine of `src/my-app/src/App.jsx`

A shallow embedding of the engine part of the `App` component: `mockHash`,
`addLog`, `handleIssue`, `handleVerify`, the two `setTimeout` callbacks and
the form events that invoke them.

Modelling conventions.

* The React state of `App` is the record `AppState`.  A handler reads the
  values of the render in which it was created, so a handler is a function of
  the state at the moment of the event.  A `setTimeout` callback keeps the
  values it closed over (`Timer`), and its functional updates
  (`setBlockchainData(prev => ...)`, `setLogs(prev => ...)`) act on the state
  at the moment the callback runs.
* `blockchainData` is a JavaScript object used as a string-keyed map.  It is
  an association list in insertion order (`Ledger`); reading a property also
  consults `Object.prototype` (`Ledger.get`).
* `App` has no error boundary.  When a render throws, React removes the
  component and its state is gone; the cell `mounted` of `AppState` records
  this.  The model does not stop there: later events go on acting on the last
  values of the cells, so every run of the component is a run of the model up
  to the moment it is removed, and a statement about the state of the component
  is a statement about a state with `mounted = true`.
* The clock and the random source are explicit inputs: `Date.now()` is a
  natural number, `new Date().toLocaleTimeString()` a string,
  `Math.random().toString(16).substr(2, 10)` a string.
* Numbers that `mockHash` handles are mathematical integers with an explicit
  wrap to 32 bits (`toInt32`).
-/

namespace Credentia

set_option maxRecDepth 1000000

/-! ## Data model -/

/-- The object literal `newRecord` of `handleIssue` (lines 95-105). -/
structure CredentialRecord where
  studentName : String
  studentID : String
  studentEmail : String
  courseName : String
  institution : String
  issueDate : Nat
  issuer : String
  isValid : Bool
  blockNumber : Nat
deriving DecidableEq, Repr

/-- One element of `logs`: `{ time, message, type }` (line 48). -/
structure LogEntry where
  time : String
  message : String
  type : String
deriving DecidableEq, Repr

/-- The own enumerable properties of the object `blockchainData`, in insertion
order: record identifier and record.  Every key that the component inserts is
a result of `mockHash` and starts with `0x`, so no key is an array index, which
JavaScript would enumerate ahead of the string keys. -/
abbrev Ledger := List (String × CredentialRecord)

/-- What a property read on `blockchainData` can yield besides `undefined`: a
stored record, or a member inherited from `Object.prototype` (named by its
property key).  The member `__proto__` is the object `Object.prototype`
itself; the other members are functions.  A React state setter stores an
object as it is and calls a function as an updater, with the previous state as
argument and without a receiver; as a stored state, `inherited key` stands for
the result of that call when it returns (an object for `constructor`, the
string `[object Undefined]` for `toString`, `false` for `isPrototypeOf`). -/
inductive JSValue where
  | record (r : CredentialRecord)
  | inherited (key : String)
deriving DecidableEq, Repr

/-- The property keys of `Object.prototype`, the prototype of every object
literal.  Each of them holds a function or an object, hence a truthy value. -/
def objectPrototypeKeys : List String :=
  ["constructor", "__defineGetter__", "__defineSetter__", "hasOwnProperty",
   "__lookupGetter__", "__lookupSetter__", "isPrototypeOf", "propertyIsEnumerable",
   "toString", "valueOf", "__proto__", "toLocaleString"]

/-- Whether a stored state is an object (and not a string or a boolean). -/
def JSValue.isObject (v : JSValue) : Bool :=
  match v with
  | JSValue.record _ => true
  | JSValue.inherited key => key == "__proto__" || key == "constructor"

/-- The function members of `Object.prototype` that start by converting their
receiver to an object and so throw a `TypeError` when called without one. -/
def throwingUpdaters : List String :=
  ["valueOf", "hasOwnProperty", "toLocaleString", "propertyIsEnumerable",
   "__defineGetter__", "__defineSetter__", "__lookupGetter__", "__lookupSetter__"]

/-- Whether handing `value` to a React state setter whose state is `prev`
ends in a thrown error: `value` is a function that React calls as
`value(prev)` and the call throws.  The members of `throwingUpdaters` always
throw; `isPrototypeOf` returns `false` for an argument that is not an object
and throws otherwise; `constructor` and `toString` return. -/
def updaterThrows (value : JSValue) (prev : Option JSValue) : Bool :=
  match value with
  | JSValue.record _ => false
  | JSValue.inherited key =>
    throwingUpdaters.contains key ||
      (key == "isPrototypeOf" &&
        (match prev with
         | some v => v.isObject
         | none => false))

/-- Own property lookup: the record stored under key `k`, if any. -/
def Ledger.own (d : Ledger) (k : String) : Option CredentialRecord :=
  match d with
  | [] => none
  | (k', v) :: rest => if k' = k then some v else Ledger.own rest k

/-- The expression `blockchainData[k]` (line 143): an own property if there is
one, otherwise the member of `Object.prototype` of that name, otherwise
`undefined` (`none`). -/
def Ledger.get (d : Ledger) (k : String) : Option JSValue :=
  match Ledger.own d k with
  | some r => some (JSValue.record r)
  | none => if k ∈ objectPrototypeKeys then some (JSValue.inherited k) else none

/-- The object `{ ...prev, [k]: v }` (line 107): the properties of `prev` in
their order; an existing key `k` keeps its position and takes the value `v`, a
new key is added at the end. -/
def Ledger.set (d : Ledger) (k : String) (v : CredentialRecord) : Ledger :=
  match d with
  | [] => [(k, v)]
  | (k', v') :: rest =>
    if k' = k then (k, v) :: rest else (k', v') :: Ledger.set rest k v

/-- The array `Object.keys(blockchainData)`. -/
def Ledger.keys (d : Ledger) : List String := d.map Prod.fst

/-- The array `Object.values(blockchainData)`. -/
def Ledger.values (d : Ledger) : List CredentialRecord := d.map Prod.snd

/-- A callback handed to `setTimeout`, with the variables it closed over. -/
inductive Timer where
  /-- The callback of `handleIssue` (lines 92-129). -/
  | issue (studentName studentID studentEmail course institution : String)
      (blockchainData : Ledger)
  /-- The callback of `handleVerify` (lines 142-158). -/
  | verify (searchHash : String) (blockchainData : Ledger)
deriving DecidableEq, Repr

/-- The `useState` cells of `App` that the engine reads or writes, and the
callbacks waiting in `setTimeout`. -/
structure AppState where
  blockchainData : Ledger
  logs : List LogEntry
  studentName : String
  studentID : String
  studentEmail : String
  lastIssuedEmail : String
  course : String
  institution : String
  isProcessing : Bool
  lastHash : Option String
  issueError : Option String
  searchHash : String
  verificationResult : Option JSValue
  verifyError : Option String
  highlightedBlockHash : Option String
  timers : List Timer
  /-- False once a render has thrown and React has removed `App`. -/
  mounted : Bool
deriving DecidableEq, Repr

/-- The initial values given to `useState` (lines 19-38). -/
def AppState.init : AppState where
  blockchainData := []
  logs := []
  studentName := ""
  studentID := ""
  studentEmail := ""
  lastIssuedEmail := ""
  course := ""
  institution := "Blockchain Institute of Technology"
  isProcessing := false
  lastHash := none
  issueError := none
  searchHash := ""
  verificationResult := none
  verifyError := none
  highlightedBlockHash := none
  timers := []
  mounted := true

/-! ## `mockHash` -/

/-- The conversion ToInt32 that the operators `<<` and `&` apply. -/
def toInt32 (x : Int) : Int := (x + 2147483648) % 4294967296 - 2147483648

/-- The UTF-16 code units of one character. -/
def utf16 (c : Char) : List Nat :=
  if c.toNat < 65536 then [c.toNat]
  else [55296 + (c.toNat - 65536) / 1024, 56320 + (c.toNat - 65536) % 1024]

/-- The values `str.charCodeAt(i)` for `i = 0 .. str.length - 1`. -/
def charCodes (str : String) : List Nat := str.toList.flatMap utf16

/-- One turn of the loop of `mockHash` (lines 10-12). -/
def hashStep (hash : Int) (char : Nat) : Int :=
  toInt32 (toInt32 (toInt32 hash * 32) - hash + char)

/-- The value of `hash` after the loop of `mockHash` (lines 8-13). -/
def hashLoop (str : String) : Int := (charCodes str).foldl hashStep 0

/-- The string `n.toString(16)` for a non-negative integer. -/
def toHex (n : Nat) : String := String.mk (Nat.toDigits 16 n)

/-- The function `mockHash` (lines 7-15); `random` is the string
`Math.random().toString(16).substr(2, 10)`. -/
def mockHash (str : String) (random : String) : String :=
  "0x" ++ toHex (hashLoop str).natAbs ++ random

/-! ## `addLog`, `handleIssue`, `handleVerify` -/

/-- The function `addLog` (lines 46-49); `time` is the string
`new Date().toLocaleTimeString()`. -/
def addLog (message : String) (type : String) (time : String) (s : AppState) : AppState :=
  { s with logs := { time := time, message := message, type := type } :: s.logs }

/-- The readings of the clock and of the random source during one run of the
callback of `handleIssue`. -/
structure CommitEnv where
  /-- The value of `Date.now()` at line 93. -/
  now : Nat
  /-- The value of `Date.now()` at line 101. -/
  issueDate : Nat
  /-- The string `Math.random().toString(16).substr(2, 10)` at line 14. -/
  random : String
  /-- The time strings of the three `addLog` calls, lines 111-113. -/
  time1 : String
  time2 : String
  time3 : String
deriving DecidableEq, Repr

/-- The record identifier computed at line 93. -/
def commitId (studentName studentID course : String) (env : CommitEnv) : String :=
  mockHash (studentName ++ studentID ++ course ++ toString env.now) env.random

/-- The object `newRecord` of lines 95-105; `blockchainData` is the ledger the
callback closed over. -/
def commitRecord (studentName studentID studentEmail course institution : String)
    (blockchainData : Ledger) (env : CommitEnv) : CredentialRecord where
  studentName := studentName
  studentID := studentID
  studentEmail := studentEmail
  courseName := course
  institution := institution
  issueDate := env.issueDate
  issuer := "0x123...abc"
  isValid := true
  blockNumber := (Ledger.keys blockchainData).length + 10245

/-- The callback that `handleIssue` hands to `setTimeout` (lines 92-129), run
in state `s`.  The inner `setTimeout` of lines 124-128 only scrolls the block
list and is left out. -/
def issueCommit (studentName studentID studentEmail course institution : String)
    (blockchainData : Ledger) (env : CommitEnv) (s : AppState) : AppState :=
  let recordId := commitId studentName studentID course env
  let newRecord :=
    commitRecord studentName studentID studentEmail course institution blockchainData env
  let s1 :=
    { s with
      blockchainData := Ledger.set s.blockchainData recordId newRecord
      lastHash := some recordId
      isProcessing := false }
  let s2 := addLog ("Transaction Mined! Block #" ++ toString newRecord.blockNumber)
    "success" env.time1 s1
  let s3 := addLog ("Event Emitted: CredentialIssued(recordId: " ++ recordId ++ ")")
    "success" env.time2 s2
  let s4 := addLog ("Certificate copy sent to " ++ studentEmail) "success" env.time3 s3
  { s4 with
    lastIssuedEmail := studentEmail
    studentName := ""
    studentID := ""
    studentEmail := ""
    course := "" }

/-- The function `handleIssue` (lines 71-130). -/
def handleIssue (time : String) (s : AppState) : AppState :=
  let s1 := { s with issueError := none, lastHash := none }
  if s.studentName = "" ∨ s.course = "" ∨ s.studentID = "" ∨ s.studentEmail = "" then s1
  else
    match (Ledger.values s.blockchainData).find? (fun record => record.studentID == s.studentID) with
    | some _ =>
      addLog ("Transaction Rejected: Duplicate Student ID " ++ s.studentID) "error" time
        { s1 with
          issueError := some ("Error: Student ID \"" ++ s.studentID ++
            "\" already has a credential on the chain.") }
    | none =>
      let s2 := addLog ("Initiating transaction: issueCredential(\"" ++ s.studentName ++
        "\", \"" ++ s.studentID ++ "\")...") "info" time { s1 with isProcessing := true }
      { s2 with
        timers := s2.timers ++
          [Timer.issue s.studentName s.studentID s.studentEmail s.course s.institution
            s.blockchainData] }

/-- The callback that `handleVerify` hands to `setTimeout` (lines 142-158), run
in state `s`.  The scrolling of lines 149-152 touches the document only and is
left out.  When `record` is a function that throws as an updater
(`updaterThrows`), the render that would apply the updates of the callback
throws and React removes `App`: none of the updates takes effect and `mounted`
becomes false. -/
def verifyResolve (searchHash : String) (blockchainData : Ledger) (time : String)
    (s : AppState) : AppState :=
  match Ledger.get blockchainData searchHash with
  | some record =>
    if updaterThrows record s.verificationResult then { s with mounted := false }
    else
      addLog "Record found and validated." "success" time
        { s with
          verificationResult := some record
          highlightedBlockHash := some searchHash }
  | none =>
    addLog "Query returned null. Invalid ID." "error" time
      { s with verifyError := some "Credential ID not found on the blockchain." }

/-- The function `handleVerify` (lines 132-159). -/
def handleVerify (time : String) (s : AppState) : AppState :=
  let s1 := { s with verifyError := none, verificationResult := none, highlightedBlockHash := none }
  if s.searchHash = "" then s1
  else
    let s2 := addLog ("Querying blockchain state for ID: " ++ s.searchHash ++ "...") "info" time s1
    { s2 with timers := s2.timers ++ [Timer.verify s.searchHash s.blockchainData] }

/-! ## Events of the running component -/

/-- The function `handleCopy` (lines 51-69) as far as the engine state goes:
one `addLog`, of type success when `document.execCommand` returns and of type
error when it throws (`ok = false`).  The cell `copied` belongs to the
presentation and is not part of `AppState`. -/
def handleCopy (ok : Bool) (time : String) (s : AppState) : AppState :=
  if ok then addLog "Hash successfully copied to clipboard." "success" time s
  else addLog "Failed to copy hash automatically." "error" time s

/-- Running a `setTimeout` callback in state `s`.  The callback of
`handleVerify` calls `addLog` once and takes `env.time1` as its time string. -/
def Timer.fire (t : Timer) (env : CommitEnv) (s : AppState) : AppState :=
  match t with
  | Timer.issue studentName studentID studentEmail course institution blockchainData =>
    issueCommit studentName studentID studentEmail course institution blockchainData env s
  | Timer.verify searchHash blockchainData =>
    verifyResolve searchHash blockchainData env.time1 s

/-- What can happen to the mounted component: an edit of a form field
(`onChange`, lines 245-304 and 417), a submit event of one of the two forms, a
click on the close button of the result box (line 346) or on its copy button
(line 375), and the expiry of a timer. -/
inductive Event where
  | setStudentName (value : String)
  | setStudentID (value : String)
  | setStudentEmail (value : String)
  | setCourse (value : String)
  | setInstitution (value : String)
  | setSearchHash (value : String)
  /-- The submit event of the issue form (line 235). -/
  | submitIssue (time : String)
  /-- The submit event of the verify form (line 413). -/
  | submitVerify (time : String)
  | closeResult
  | copy (ok : Bool) (time : String)
  /-- The callback at position `k` of the waiting timers runs. -/
  | timeout (k : Nat) (env : CommitEnv)
deriving DecidableEq, Repr

/-- One event.  The submit button of the issue form carries
`disabled={isProcessing}` (line 320), so while `isProcessing` is true the form
cannot be submitted and `handleIssue` is not called. -/
def step (s : AppState) (e : Event) : AppState :=
  match e with
  | Event.setStudentName v => { s with studentName := v }
  | Event.setStudentID v => { s with studentID := v }
  | Event.setStudentEmail v => { s with studentEmail := v }
  | Event.setCourse v => { s with course := v }
  | Event.setInstitution v => { s with institution := v }
  | Event.setSearchHash v => { s with searchHash := v }
  | Event.submitIssue time => if s.isProcessing then s else handleIssue time s
  | Event.submitVerify time => handleVerify time s
  | Event.closeResult => { s with lastHash := none }
  | Event.copy ok time => handleCopy ok time s
  | Event.timeout k env =>
    match s.timers[k]? with
    | some t => Timer.fire t env { s with timers := s.timers.eraseIdx k }
    | none => s

/-- A sequence of events, from state `s`. -/
def run (s : AppState) (evs : List Event) : AppState := evs.foldl step s

/-- The `studentID` fields of the records of a ledger, in ledger order. -/
def Ledger.studentIDs (d : Ledger) : List String :=
  (Ledger.values d).map CredentialRecord.studentID

/-- Whether a waiting callback is the commit of an issue transaction. -/
def Timer.isIssue (t : Timer) : Bool :=
  match t with
  | Timer.issue _ _ _ _ _ _ => true
  | Timer.verify _ _ => false

/-- The identifier and the record that event `e` inserts into the ledger when
it happens in state `s`: defined when `e` is the expiry of the callback of
`handleIssue`. -/
def committed (s : AppState) (e : Event) : Option (String × CredentialRecord) :=
  match e with
  | Event.timeout k env =>
    match s.timers[k]? with
    | some (Timer.issue studentName studentID studentEmail course institution blockchainData) =>
      some (commitId studentName studentID course env,
        commitRecord studentName studentID studentEmail course institution blockchainData env)
    | _ => none
  | _ => none

/-- The identifiers and records inserted by the commits of a sequence of
events, in the order of the commits. -/
def commits (s : AppState) (evs : List Event) : List (String × CredentialRecord) :=
  match evs with
  | [] => []
  | e :: es => (committed s e).toList ++ commits (step s e) es

/-- What the callback of `handleIssue` closed over agrees with a ledger `cur`:
the ledger it saw is `cur`, and no record of it carries the `studentID` of the
callback. -/
def Timer.consistent (cur : Ledger) (t : Timer) : Prop :=
  match t with
  | Timer.issue _ studentID _ _ _ blockchainData =>
    blockchainData = cur ∧ studentID ∉ Ledger.studentIDs blockchainData
  | Timer.verify _ _ => True

/-- The invariant of the running component. -/
structure Inv (s : AppState) : Prop where
  nodup : (Ledger.studentIDs s.blockchainData).Nodup
  count : s.timers.countP Timer.isIssue = if s.isProcessing then 1 else 0
  closed : ∀ t ∈ s.timers, Timer.consistent s.blockchainData t

/-- A complete verify transaction with nothing in between: the submit event of
the verify form, then the expiry of the timer that the submission started (it
waits at the end of the timers of `s`). -/
def verifyTransaction (time : String) (env : CommitEnv) (s : AppState) : AppState :=
  step (step s (Event.submitVerify time)) (Event.timeout s.timers.length env)

/-- A call of `addLog` whose second argument may be left out (`none`): the
parameter list `(message, type = 'info')` of line 46 then gives `type` the
value `'info'`. -/
def addLogCall (message : String) (type : Option String) (time : String) (s : AppState) :
    AppState :=
  addLog message (type.getD "info") time s

/-- One element of the array `blocks` (line 161): the object
`{ hash, ...data }`. -/
structure Block extends CredentialRecord where
  hash : String
deriving DecidableEq, Repr

/-- The array `blocks` of line 161:
`Object.entries(blockchainData).map(([hash, data]) => ({ hash, ...data }))`. -/
def blocks (blockchainData : Ledger) : List Block :=
  blockchainData.map (fun entry => { toCredentialRecord := entry.2, hash := entry.1 })

/-! ## Reference notions for `mockHash` -/

/-- The sum of `c_i * 31 ^ (n - 1 - i)` over the code units `c_0 .. c_(n-1)`,
as a mathematical integer (no wrap). -/
def polySum (cs : List Nat) : Int :=
  match cs with
  | [] => 0
  | c :: rest => (c : Int) * 31 ^ rest.length + polySum rest

/-- Whether a character is one of `0 .. 9`, `a .. f`. -/
def isLowerHex (c : Char) : Bool :=
  (48 ≤ c.toNat && c.toNat ≤ 57) || (97 ≤ c.toNat && c.toNat ≤ 102)

/-- The value of a digit `0 .. 9`, `a .. f`. -/
def hexDigitValue (c : Char) : Nat :=
  if c.toNat ≤ 57 then c.toNat - 48 else c.toNat - 87

/-- The number that a string of hexadecimal digits denotes, most significant
digit first. -/
def hexValue (str : String) : Nat :=
  str.toList.foldl (fun acc c => 16 * acc + hexDigitValue c) 0

/-! ## Scenarios -/

/-- Scenario 1 of the specification up to the submission: the form is filled in
for Ann and submitted. -/
def issueAnn : List Event :=
  [Event.setStudentName "Ann", Event.setStudentID "S1", Event.setStudentEmail "a@x.edu",
   Event.setCourse "CS", Event.submitIssue "10:00:00 AM"]

/-- The clock and the random source when the commit for Ann runs. -/
def envAnn : CommitEnv where
  now := 1700000000000
  issueDate := 1700000000000
  random := "3f9a1c27b4"
  time1 := "10:00:02 AM"
  time2 := "10:00:02 AM"
  time3 := "10:00:02 AM"

/-- The state after Ann's credential has been committed. -/
def afterAnn : AppState := run AppState.init (issueAnn ++ [Event.timeout 0 envAnn])

/-- The record committed for Ann. -/
def recordAnn : CredentialRecord where
  studentName := "Ann"
  studentID := "S1"
  studentEmail := "a@x.edu"
  courseName := "CS"
  institution := "Blockchain Institute of Technology"
  issueDate := 1700000000000
  issuer := "0x123...abc"
  isValid := true
  blockNumber := 10245

/-- Scenario 2 of the specification: a second submission with Ann's student
identifier. -/
def fillDuplicate : List Event :=
  [Event.setStudentName "Bob", Event.setStudentID "S1", Event.setStudentEmail "b@x.edu",
   Event.setCourse "EE"]

/-- The identifier under which Ann's record is committed. -/
def idAnn : String := "0x4711a03b3f9a1c27b4"

/-- A later submission, for another student. -/
def issueHana : List Event :=
  [Event.setStudentName "Hana Ho", Event.setStudentID "S2", Event.setStudentEmail "h@x.edu",
   Event.setCourse "ME", Event.submitIssue "10:04:55 AM"]

/-- The clock and the random source when the commit for Hana runs, five
minutes after Ann's: the loop of `mockHash` ends on the same number for
`"Hana HoS2ME1700000297773"` as for `"AnnS1CS1700000000000"`, and the random
source returns the same digits. -/
def envHana : CommitEnv where
  now := 1700000297773
  issueDate := 1700000297773
  random := "3f9a1c27b4"
  time1 := "10:04:57 AM"
  time2 := "10:04:57 AM"
  time3 := "10:04:57 AM"

/-- The record committed for Hana. -/
def recordHana : CredentialRecord where
  studentName := "Hana Ho"
  studentID := "S2"
  studentEmail := "h@x.edu"
  courseName := "ME"
  institution := "Blockchain Institute of Technology"
  issueDate := 1700000297773
  issuer := "0x123...abc"
  isValid := true
  blockNumber := 10246

/-- A third submission. -/
def issueOmar : List Event :=
  [Event.setStudentName "Omar", Event.setStudentID "S3", Event.setStudentEmail "o@x.edu",
   Event.setCourse "Law", Event.submitIssue "10:10:00 AM"]

/-- The clock and the random source when the commit for Omar runs. -/
def envOmar : CommitEnv where
  now := 1700000602000
  issueDate := 1700000602000
  random := "9b04e17d2a"
  time1 := "10:10:02 AM"
  time2 := "10:10:02 AM"
  time3 := "10:10:02 AM"

/-- Three issue transactions one after the other, each committed before the
next is submitted. -/
def threeIssues : List Event :=
  issueAnn ++ [Event.timeout 0 envAnn] ++ issueHana ++ [Event.timeout 0 envHana] ++
    issueOmar ++ [Event.timeout 0 envOmar]

/-- A submission between Ann's and Hana's, for a third student. -/
def issueBen : List Event :=
  [Event.setStudentName "Ben", Event.setStudentID "S3", Event.setStudentEmail "ben@x.edu",
   Event.setCourse "EE", Event.submitIssue "10:02:00 AM"]

/-- The clock and the random source when the commit for Ben runs. -/
def envBen : CommitEnv where
  now := 1700000122000
  issueDate := 1700000122000
  random := "c5d20e8a61"
  time1 := "10:02:02 AM"
  time2 := "10:02:02 AM"
  time3 := "10:02:02 AM"

/-- Three issue transactions, each committed before the next is submitted:
Ann, then Ben, then Hana, whose commit computes the identifier of Ann's. -/
def annBenHana : List Event :=
  issueAnn ++ [Event.timeout 0 envAnn] ++ issueBen ++ [Event.timeout 0 envBen] ++
    issueHana ++ [Event.timeout 0 envHana]

/-- Two issue transactions whose identifiers differ: Ann, then Omar. -/
def annThenOmar : List Event :=
  issueAnn ++ [Event.timeout 0 envAnn] ++ issueOmar ++ [Event.timeout 0 envOmar]

/-! ## The ledger as a map -/

theorem Ledger.own_set_same (d : Ledger) (k : String) (v : CredentialRecord) :
    Ledger.own (Ledger.set d k v) k = some v := by
  induction d with
  | nil => simp [Ledger.set, Ledger.own]
  | cons p rest ih =>
    obtain ⟨k', v'⟩ := p
    by_cases h : k' = k
    · simp [Ledger.set, Ledger.own, h]
    · simp [Ledger.set, Ledger.own, h, ih]

theorem Ledger.own_set_ne (d : Ledger) (k k' : String) (v : CredentialRecord) (hk : k ≠ k') :
    Ledger.own (Ledger.set d k v) k' = Ledger.own d k' := by
  induction d with
  | nil => simp [Ledger.set, Ledger.own, hk]
  | cons p rest ih =>
    obtain ⟨k1, v1⟩ := p
    by_cases h : k1 = k
    · subst h
      simp [Ledger.set, Ledger.own, hk]
    · by_cases h1 : k1 = k'
      · subst h1
        simp [Ledger.set, Ledger.own, h]
      · simp [Ledger.set, Ledger.own, h, h1, ih]

theorem Ledger.own_eq_none_iff (d : Ledger) (k : String) :
    Ledger.own d k = none ↔ k ∉ Ledger.keys d := by
  induction d with
  | nil => simp [Ledger.own, Ledger.keys]
  | cons p rest ih =>
    obtain ⟨k1, v1⟩ := p
    by_cases h : k1 = k
    · simp [Ledger.own, Ledger.keys, h]
    · have h' : ¬ k = k1 := fun e => h e.symm
      rw [show Ledger.own ((k1, v1) :: rest) k = Ledger.own rest k by simp [Ledger.own, h], ih]
      simp [Ledger.keys, h']

theorem Ledger.set_of_not_mem (d : Ledger) (k : String) (v : CredentialRecord)
    (hk : k ∉ Ledger.keys d) : Ledger.set d k v = d ++ [(k, v)] := by
  induction d with
  | nil => simp [Ledger.set]
  | cons p rest ih =>
    obtain ⟨k1, v1⟩ := p
    simp [Ledger.keys] at hk
    have h : ¬ k1 = k := fun e => hk.1 e.symm
    have hrest : k ∉ Ledger.keys rest := by simpa [Ledger.keys] using hk.2
    simp [Ledger.set, h, ih hrest]

theorem Ledger.studentIDs_cons (k : String) (v : CredentialRecord) (rest : Ledger) :
    Ledger.studentIDs ((k, v) :: rest) = v.studentID :: Ledger.studentIDs rest := rfl

theorem Ledger.mem_studentIDs_set (d : Ledger) (k : String) (v : CredentialRecord) (x : String)
    (hx : x ∈ Ledger.studentIDs (Ledger.set d k v)) :
    x ∈ Ledger.studentIDs d ∨ x = v.studentID := by
  induction d with
  | nil =>
    simp [Ledger.set, Ledger.studentIDs, Ledger.values] at hx
    exact Or.inr hx
  | cons p rest ih =>
    obtain ⟨k1, v1⟩ := p
    by_cases h : k1 = k
    · rw [show Ledger.set ((k1, v1) :: rest) k v = (k, v) :: rest by simp [Ledger.set, h],
        Ledger.studentIDs_cons] at hx
      rw [Ledger.studentIDs_cons]
      rcases List.mem_cons.mp hx with hx | hx
      · exact Or.inr hx
      · exact Or.inl (List.mem_cons_of_mem _ hx)
    · rw [show Ledger.set ((k1, v1) :: rest) k v = (k1, v1) :: Ledger.set rest k v by
        simp [Ledger.set, h], Ledger.studentIDs_cons] at hx
      rw [Ledger.studentIDs_cons]
      rcases List.mem_cons.mp hx with hx | hx
      · exact Or.inl (List.mem_cons.mpr (Or.inl hx))
      · rcases ih hx with h1 | h1
        · exact Or.inl (List.mem_cons_of_mem _ h1)
        · exact Or.inr h1

theorem Ledger.nodup_studentIDs_set (d : Ledger) (k : String) (v : CredentialRecord)
    (hnew : v.studentID ∉ Ledger.studentIDs d) (hd : (Ledger.studentIDs d).Nodup) :
    (Ledger.studentIDs (Ledger.set d k v)).Nodup := by
  induction d with
  | nil => simp [Ledger.set, Ledger.studentIDs, Ledger.values]
  | cons p rest ih =>
    obtain ⟨k1, v1⟩ := p
    rw [Ledger.studentIDs_cons] at hd hnew
    have hd' := List.nodup_cons.mp hd
    have hnew1 : ¬ v.studentID = v1.studentID := fun e => hnew (List.mem_cons.mpr (Or.inl e))
    have hnew2 : v.studentID ∉ Ledger.studentIDs rest := fun e => hnew (List.mem_cons_of_mem _ e)
    by_cases h : k1 = k
    · rw [show Ledger.set ((k1, v1) :: rest) k v = (k, v) :: rest by simp [Ledger.set, h],
        Ledger.studentIDs_cons]
      exact List.nodup_cons.mpr ⟨hnew2, hd'.2⟩
    · rw [show Ledger.set ((k1, v1) :: rest) k v = (k1, v1) :: Ledger.set rest k v by
        simp [Ledger.set, h], Ledger.studentIDs_cons]
      refine List.nodup_cons.mpr ⟨?_, ih hnew2 hd'.2⟩
      intro hmem
      rcases Ledger.mem_studentIDs_set rest k v _ hmem with h1 | h1
      · exact hd'.1 h1
      · exact hnew1 h1.symm

/-- The duplicate search of `handleIssue` (lines 79-81) finds nothing exactly
when no record of the ledger carries the submitted `studentID`. -/
theorem find_duplicate_eq_none (d : Ledger) (i : String) :
    (Ledger.values d).find? (fun record => record.studentID == i) = none
      ↔ i ∉ Ledger.studentIDs d := by
  simp [Ledger.studentIDs, List.find?_eq_none]

/-! ## Waiting callbacks -/

theorem countP_eraseIdx_add {α : Type} (p : α → Bool) (l : List α) (k : Nat) (t : α)
    (h : l[k]? = some t) :
    (l.eraseIdx k).countP p + (if p t then 1 else 0) = l.countP p := by
  induction l generalizing k with
  | nil => simp at h
  | cons a rest ih =>
    cases k with
    | zero =>
      simp at h
      subst h
      simp [List.countP_cons]
    | succ k =>
      simp at h
      have := ih k h
      simp only [List.eraseIdx_cons_succ, List.countP_cons]
      omega

theorem handleVerify_blockchainData (time : String) (s : AppState) :
    (handleVerify time s).blockchainData = s.blockchainData := by
  unfold handleVerify
  split <;> simp [addLog]

theorem handleVerify_isProcessing (time : String) (s : AppState) :
    (handleVerify time s).isProcessing = s.isProcessing := by
  unfold handleVerify
  split <;> simp [addLog]

theorem handleVerify_countP (time : String) (s : AppState) :
    (handleVerify time s).timers.countP Timer.isIssue = s.timers.countP Timer.isIssue := by
  unfold handleVerify
  split <;> simp [addLog, Timer.isIssue]

theorem handleVerify_mem_timers (time : String) (s : AppState) (t : Timer)
    (ht : t ∈ (handleVerify time s).timers) : t ∈ s.timers ∨ t.isIssue = false := by
  unfold handleVerify at ht
  split at ht
  · exact Or.inl ht
  · simp [addLog] at ht
    rcases ht with ht | ht
    · exact Or.inl ht
    · subst ht
      exact Or.inr rfl

theorem Timer.consistent_of_not_isIssue (cur : Ledger) (t : Timer) (h : t.isIssue = false) :
    Timer.consistent cur t := by
  cases t with
  | issue a b c d e f => simp [Timer.isIssue] at h
  | verify a b => trivial

theorem verifyResolve_blockchainData (searchHash : String) (d : Ledger) (time : String)
    (s : AppState) : (verifyResolve searchHash d time s).blockchainData = s.blockchainData := by
  unfold verifyResolve
  split
  · split <;> simp [addLog]
  · simp [addLog]

theorem verifyResolve_isProcessing (searchHash : String) (d : Ledger) (time : String)
    (s : AppState) : (verifyResolve searchHash d time s).isProcessing = s.isProcessing := by
  unfold verifyResolve
  split
  · split <;> simp [addLog]
  · simp [addLog]

theorem verifyResolve_timers (searchHash : String) (d : Ledger) (time : String)
    (s : AppState) : (verifyResolve searchHash d time s).timers = s.timers := by
  unfold verifyResolve
  split
  · split <;> simp [addLog]
  · simp [addLog]

theorem Inv.init : Inv AppState.init := by
  constructor <;> simp [AppState.init, Ledger.studentIDs, Ledger.values]

theorem Inv.handleIssue (time : String) (s : AppState) (hs : Inv s)
    (hp : s.isProcessing = false) : Inv (handleIssue time s) := by
  obtain ⟨h1, h2, h3⟩ := hs
  unfold Credentia.handleIssue
  split
  · exact ⟨h1, h2, h3⟩
  · split
    · exact ⟨h1, h2, h3⟩
    · rename_i hnone
      have hfresh := (find_duplicate_eq_none _ _).mp hnone
      refine ⟨h1, ?_, ?_⟩
      · have h2' : s.timers.countP Timer.isIssue = 0 := by
          rw [h2, hp]
          rfl
        simp [addLog, List.countP_append, List.countP_cons, h2', Timer.isIssue]
      · intro t ht
        simp [addLog] at ht ⊢
        rcases ht with ht | ht
        · exact h3 t ht
        · subst ht
          exact ⟨rfl, hfresh⟩

theorem Inv.timeout (k : Nat) (env : CommitEnv) (s : AppState) (hs : Inv s) :
    Inv (step s (Event.timeout k env)) := by
  obtain ⟨h1, h2, h3⟩ := hs
  unfold step
  simp only
  cases hk : s.timers[k]? with
  | none => exact ⟨h1, h2, h3⟩
  | some t =>
    have hcount := countP_eraseIdx_add Timer.isIssue s.timers k t hk
    have hmem : t ∈ s.timers := List.getElem?_mem hk
    cases t with
    | verify h d =>
      simp only [Timer.fire]
      refine ⟨?_, ?_, ?_⟩
      · rw [verifyResolve_blockchainData]
        exact h1
      · rw [verifyResolve_isProcessing, verifyResolve_timers]
        simp [Timer.isIssue] at hcount
        simp [hcount, h2]
      · rw [verifyResolve_blockchainData, verifyResolve_timers]
        intro t ht
        exact h3 t (List.mem_of_mem_eraseIdx ht)
    | issue n i e c inst d =>
      have hcons := h3 _ hmem
      simp only [Timer.consistent] at hcons
      obtain ⟨hd, hfresh⟩ := hcons
      subst hd
      simp only [Timer.isIssue, if_true] at hcount
      have hzero : (s.timers.eraseIdx k).countP Timer.isIssue = 0 := by
        rw [h2] at hcount
        split at hcount <;> omega
      simp only [Timer.fire, issueCommit, addLog]
      refine ⟨?_, ?_, ?_⟩
      · exact Ledger.nodup_studentIDs_set _ _ _ hfresh h1
      · simpa using hzero
      · intro t ht
        have := (List.countP_eq_zero.mp hzero) t ht
        exact Timer.consistent_of_not_isIssue _ t (by simpa using this)

theorem Inv.step (s : AppState) (e : Event) (hs : Inv s) : Inv (step s e) := by
  cases e with
  | timeout k env => exact Inv.timeout k env s hs
  | submitIssue time =>
    unfold Credentia.step
    simp only
    split
    · exact hs
    · rename_i hp
      exact Inv.handleIssue time s hs (by simpa using hp)
  | submitVerify time =>
    obtain ⟨h1, h2, h3⟩ := hs
    unfold Credentia.step
    simp only
    refine ⟨?_, ?_, ?_⟩
    · rw [handleVerify_blockchainData]
      exact h1
    · rw [handleVerify_countP, handleVerify_isProcessing]
      exact h2
    · rw [handleVerify_blockchainData]
      intro t ht
      rcases handleVerify_mem_timers time s t ht with h | h
      · exact h3 t h
      · exact Timer.consistent_of_not_isIssue _ t h
  | copy ok time =>
    obtain ⟨h1, h2, h3⟩ := hs
    unfold Credentia.step handleCopy
    simp only
    split <;> exact ⟨h1, h2, h3⟩
  | _ =>
    obtain ⟨h1, h2, h3⟩ := hs
    exact ⟨h1, h2, h3⟩

theorem Inv.run (evs : List Event) (s : AppState) (hs : Inv s) : Inv (run s evs) := by
  induction evs generalizing s with
  | nil => exact hs
  | cons e es ih => exact ih (Credentia.step s e) (Inv.step s e hs)

/-! ## Claims on `handleIssue` -/

/-- C1. Uniqueness invariant: in every state reached from the initial state of
the component by any sequence of events (form edits, submissions of the issue
form, whose button is disabled while `isProcessing`, submissions of the verify
form, and expiries of the waiting callbacks in any order), no two records of
`blockchainData` have the same `studentID`. -/
theorem studentID_unique (evs : List Event) :
    (run AppState.init evs).blockchainData.Pairwise
      (fun a b => a.2.studentID ≠ b.2.studentID) := by
  have h := (Inv.run evs AppState.init Inv.init).nodup
  unfold Ledger.studentIDs Ledger.values at h
  rw [List.map_map] at h
  exact List.pairwise_map.mp h

/-- C2. Duplicate rejection: when the four required fields are non-empty and a
record of the ledger carries the submitted `studentID`, `handleIssue` leaves the
ledger as it is, puts exactly one entry of type error in front of the log, sets
`issueError`, leaves `isProcessing` as it is and starts no timer. -/
theorem handleIssue_duplicate (time : String) (s : AppState)
    (hname : s.studentName ≠ "") (hid : s.studentID ≠ "") (hemail : s.studentEmail ≠ "")
    (hcourse : s.course ≠ "")
    (hdup : ∃ p ∈ s.blockchainData, p.2.studentID = s.studentID) :
    (handleIssue time s).blockchainData = s.blockchainData ∧
    (handleIssue time s).logs =
      { time := time
        message := "Transaction Rejected: Duplicate Student ID " ++ s.studentID
        type := "error" } :: s.logs ∧
    (handleIssue time s).issueError =
      some ("Error: Student ID \"" ++ s.studentID ++ "\" already has a credential on the chain.") ∧
    (handleIssue time s).isProcessing = s.isProcessing ∧
    (handleIssue time s).timers = s.timers := by
  have hfields : ¬ (s.studentName = "" ∨ s.course = "" ∨ s.studentID = "" ∨ s.studentEmail = "") := by
    simp [hname, hid, hemail, hcourse]
  obtain ⟨p, hp, hpid⟩ := hdup
  have hmem : s.studentID ∈ Ledger.studentIDs s.blockchainData := by
    unfold Ledger.studentIDs Ledger.values
    rw [List.map_map]
    exact List.mem_map.mpr ⟨p, hp, hpid⟩
  unfold handleIssue
  rw [if_neg hfields]
  split
  · simp [addLog]
  · rename_i hnone
    exact absurd hmem ((find_duplicate_eq_none _ _).mp hnone)

/-- Scenario 2 of the specification as an instance of C2. -/
theorem handleIssue_duplicate_witness :
    (handleIssue "10:05:00 AM" (run afterAnn fillDuplicate)).blockchainData
        = (run afterAnn fillDuplicate).blockchainData ∧
    (handleIssue "10:05:00 AM" (run afterAnn fillDuplicate)).blockchainData.length = 1 ∧
    (handleIssue "10:05:00 AM" (run afterAnn fillDuplicate)).timers = [] :=
  have h := handleIssue_duplicate "10:05:00 AM" (run afterAnn fillDuplicate)
    (by decide) (by decide) (by decide) (by decide) (by decide)
  ⟨h.1, by decide, by rw [h.2.2.2.2]; decide⟩

/-- C10. Missing field: when one of `studentName`, `studentID`, `studentEmail`,
`course` is the empty string, `handleIssue` changes neither the ledger nor the
log nor `isProcessing` and starts no timer.  An empty `institution` does not
abort: with the four required fields non-empty and no record carrying the
`studentID`, the submission sets `isProcessing` and starts the commit timer,
also when `institution` is the empty string. -/
theorem handleIssue_missing_field (time : String) (s : AppState) :
    ((s.studentName = "" ∨ s.studentID = "" ∨ s.studentEmail = "" ∨ s.course = "") →
      (handleIssue time s).blockchainData = s.blockchainData ∧
      (handleIssue time s).logs = s.logs ∧
      (handleIssue time s).isProcessing = s.isProcessing ∧
      (handleIssue time s).timers = s.timers) ∧
    (s.institution = "" → s.studentName ≠ "" → s.studentID ≠ "" → s.studentEmail ≠ "" →
      s.course ≠ "" → s.studentID ∉ Ledger.studentIDs s.blockchainData →
      (handleIssue time s).isProcessing = true ∧
      (handleIssue time s).timers = s.timers ++
        [Timer.issue s.studentName s.studentID s.studentEmail s.course "" s.blockchainData]) := by
  constructor
  · intro h
    have hfields : s.studentName = "" ∨ s.course = "" ∨ s.studentID = "" ∨ s.studentEmail = "" := by
      rcases h with h | h | h | h <;> simp [h]
    unfold handleIssue
    rw [if_pos hfields]
    simp
  · intro hinst hname hid hemail hcourse hfresh
    have hfields : ¬ (s.studentName = "" ∨ s.course = "" ∨ s.studentID = "" ∨ s.studentEmail = "") := by
      simp [hname, hid, hemail, hcourse]
    have hnone := (find_duplicate_eq_none _ _).mpr hfresh
    unfold handleIssue
    rw [if_neg hfields]
    simp only [hnone]
    simp [addLog, hinst]

/-- Instances of C10: a submission without `studentID`, and a submission with
an empty `institution`. -/
theorem handleIssue_missing_field_witness :
    (handleIssue "10:00:00 AM" (run afterAnn [Event.setStudentName "Bob"])).logs
        = (run afterAnn [Event.setStudentName "Bob"]).logs ∧
    (handleIssue "10:00:00 AM"
        (run AppState.init (Event.setInstitution "" :: issueAnn))).isProcessing = true :=
  ⟨((handleIssue_missing_field "10:00:00 AM" (run afterAnn [Event.setStudentName "Bob"])).1
      (by decide)).2.1,
   ((handleIssue_missing_field "10:00:00 AM"
      (run AppState.init (Event.setInstitution "" :: issueAnn))).2
      (by decide) (by decide) (by decide) (by decide) (by decide) (by decide)).1⟩

/-- C9. Single in-flight issue: in every state reached from the initial state
in which an issue transaction is pending (`isProcessing` is true), a new
submission of the issue form, the only way into `handleIssue`, is turned away
by the disabled submit button: it changes nothing and starts no second commit
timer.  So the number of waiting commit callbacks is 1 when `isProcessing` is
true and 0 otherwise: at most one issue commit is ever outstanding. -/
theorem single_issue_in_flight (evs : List Event) :
    (run AppState.init evs).timers.countP Timer.isIssue
        = (if (run AppState.init evs).isProcessing then 1 else 0) ∧
    (∀ time, (run AppState.init evs).isProcessing = true →
      step (run AppState.init evs) (Event.submitIssue time) = run AppState.init evs) := by
  refine ⟨(Inv.run evs AppState.init Inv.init).count, ?_⟩
  intro time hp
  simp [step, hp]

/-! ## Commits and the ledger -/

theorem handleIssue_blockchainData (time : String) (s : AppState) :
    (handleIssue time s).blockchainData = s.blockchainData := by
  unfold handleIssue
  split
  · rfl
  · split <;> simp [addLog]

theorem committed_eq_some (s : AppState) (e : Event) (r : String) (rec : CredentialRecord)
    (h : committed s e = some (r, rec)) :
    ∃ k env n i em c inst d, e = Event.timeout k env ∧
      s.timers[k]? = some (Timer.issue n i em c inst d) ∧
      r = commitId n i c env ∧ rec = commitRecord n i em c inst d env := by
  cases e with
  | timeout k env =>
    unfold committed at h
    simp only at h
    cases hk : s.timers[k]? with
    | none => simp [hk] at h
    | some t =>
      cases t with
      | verify a b => simp [hk] at h
      | issue n i em c inst d =>
        simp [hk] at h
        exact ⟨k, env, n, i, em, c, inst, d, rfl, hk, h.1.symm, h.2.symm⟩
  | _ => simp [committed] at h

theorem step_blockchainData_of_committed (s : AppState) (e : Event) (r : String)
    (rec : CredentialRecord) (h : committed s e = some (r, rec)) :
    (step s e).blockchainData = Ledger.set s.blockchainData r rec := by
  obtain ⟨k, env, n, i, em, c, inst, d, he, hk, hr, hrec⟩ := committed_eq_some s e r rec h
  subst he hr hrec
  simp [step, hk, Timer.fire, issueCommit, addLog]

theorem step_blockchainData_of_not_committed (s : AppState) (e : Event)
    (h : committed s e = none) : (step s e).blockchainData = s.blockchainData := by
  cases e with
  | timeout k env =>
    unfold committed at h
    simp only at h
    unfold step
    simp only
    cases hk : s.timers[k]? with
    | none => rfl
    | some t =>
      cases t with
      | verify a b => simp [Timer.fire, verifyResolve_blockchainData]
      | issue n i em c inst d => simp [hk] at h
  | submitIssue time =>
    unfold step
    simp only
    split
    · rfl
    · exact handleIssue_blockchainData time s
  | submitVerify time => exact handleVerify_blockchainData time s
  | copy ok time =>
    unfold step handleCopy
    simp only
    split <;> rfl
  | _ => rfl

theorem step_own (s : AppState) (e : Event) (r : String) (rec : CredentialRecord)
    (h : Ledger.own s.blockchainData r = some rec)
    (hne : ∀ p, committed s e = some p → p.1 ≠ r) :
    Ledger.own (step s e).blockchainData r = some rec := by
  cases hc : committed s e with
  | none => rw [step_blockchainData_of_not_committed s e hc]; exact h
  | some p =>
    obtain ⟨r', rec'⟩ := p
    rw [step_blockchainData_of_committed s e r' rec' hc, Ledger.own_set_ne _ _ _ _ (hne _ hc)]
    exact h

theorem run_own (evs : List Event) (s : AppState) (r : String) (rec : CredentialRecord)
    (h : Ledger.own s.blockchainData r = some rec)
    (hne : r ∉ (commits s evs).map Prod.fst) :
    Ledger.own (run s evs).blockchainData r = some rec := by
  induction evs generalizing s with
  | nil => exact h
  | cons e es ih =>
    have hne' : ¬ (r ∈ (committed s e).toList.map Prod.fst) ∧
        r ∉ (commits (step s e) es).map Prod.fst := by
      simpa [commits, List.map_append, List.mem_append, not_or] using hne
    refine ih (step s e) (step_own s e r rec h ?_) hne'.2
    intro p hp hpr
    apply hne'.1
    rw [hp]
    simp [hpr]

theorem mockHash_ne_empty (str random : String) : mockHash str random ≠ "" := by
  intro h
  have := congrArg String.length h
  simp [mockHash, String.length_append] at this
  exact absurd this.1.1 (by decide)

theorem commits_blockNumber (evs : List Event) (s : AppState) (hs : Inv s)
    (hfresh : (Ledger.keys s.blockchainData ++ (commits s evs).map Prod.fst).Nodup) :
    (run s evs).blockchainData = s.blockchainData ++ commits s evs ∧
    ∀ n p, (commits s evs)[n]? = some p →
      p.2.blockNumber = 10245 + s.blockchainData.length + n := by
  induction evs generalizing s with
  | nil => simp [run, commits]
  | cons e es ih =>
    cases hc : committed s e with
    | none =>
      have hl := step_blockchainData_of_not_committed s e hc
      have hfresh' : (Ledger.keys (step s e).blockchainData
          ++ (commits (step s e) es).map Prod.fst).Nodup := by
        rw [hl]
        simpa [commits, hc] using hfresh
      obtain ⟨h1, h2⟩ := ih (step s e) (Inv.step s e hs) hfresh'
      rw [hl] at h1 h2
      constructor
      · simpa [run, commits, hc] using h1
      · intro n p hp
        exact h2 n p (by simpa [commits, hc] using hp)
    | some q =>
      obtain ⟨r, rec⟩ := q
      have hsplit : (Ledger.keys s.blockchainData
          ++ (r :: (commits (step s e) es).map Prod.fst)).Nodup := by
        simpa [commits, hc] using hfresh
      have hr : r ∉ Ledger.keys s.blockchainData := by
        intro hmem
        exact (List.nodup_append.mp hsplit).2.2 hmem (List.mem_cons_self _ _)
      have hl : (step s e).blockchainData = s.blockchainData ++ [(r, rec)] := by
        rw [step_blockchainData_of_committed s e r rec hc, Ledger.set_of_not_mem _ _ _ hr]
      have hnum : rec.blockNumber = 10245 + s.blockchainData.length := by
        obtain ⟨k, env, n, i, em, c, inst, d, he, hk, hrid, hrec⟩ := committed_eq_some s e r rec hc
        have hcons := hs.closed _ (List.getElem?_mem hk)
        simp only [Timer.consistent] at hcons
        rw [hrec, ← hcons.1]
        simp [commitRecord, Ledger.keys, Nat.add_comm]
      have hfresh' : (Ledger.keys (step s e).blockchainData
          ++ (commits (step s e) es).map Prod.fst).Nodup := by
        rw [hl]
        simpa [Ledger.keys, List.append_assoc] using hsplit
      obtain ⟨h1, h2⟩ := ih (step s e) (Inv.step s e hs) hfresh'
      rw [hl] at h1 h2
      constructor
      · simpa [run, commits, hc, List.append_assoc] using h1
      · intro n p hp
        cases n with
        | zero =>
          have : p = (r, rec) := by simpa [commits, hc] using hp.symm
          rw [this]
          simpa using hnum
        | succ n =>
          have hp' : (commits (step s e) es)[n]? = some p := by
            simpa [commits, hc] using hp
          have := h2 n p hp'
          simp only [List.length_append, List.length_singleton] at this
          omega

theorem eraseIdx_append_singleton {α : Type} (l : List α) (a : α) :
    (l ++ [a]).eraseIdx l.length = l := by
  rw [List.eraseIdx_append_of_length_le (Nat.le_refl _)]
  simp

theorem verifyTransaction_eq (time : String) (env : CommitEnv) (s : AppState)
    (h : s.searchHash ≠ "") :
    verifyTransaction time env s =
      verifyResolve s.searchHash s.blockchainData env.time1
        (addLog ("Querying blockchain state for ID: " ++ s.searchHash ++ "...") "info" time
          { s with verifyError := none, verificationResult := none,
                   highlightedBlockHash := none }) := by
  unfold verifyTransaction step
  simp only
  unfold handleVerify
  rw [if_neg h]
  simp [addLog, Timer.fire, eraseIdx_append_singleton]

theorem verifyResolve_found (searchHash : String) (d : Ledger) (time : String) (s : AppState)
    (rec : CredentialRecord) (h : Ledger.own d searchHash = some rec) :
    verifyResolve searchHash d time s =
      addLog "Record found and validated." "success" time
        { s with verificationResult := some (JSValue.record rec)
                 highlightedBlockHash := some searchHash } := by
  simp [verifyResolve, Ledger.get, h, updaterThrows]

/-- The lookup of `handleVerify` on a key that is neither a record identifier
of the ledger nor a property key of `Object.prototype`: the not-found branch
runs. -/
theorem verifyResolve_not_found (searchHash : String) (d : Ledger) (time : String)
    (s : AppState) (h : Ledger.own d searchHash = none)
    (hproto : searchHash ∉ objectPrototypeKeys) :
    verifyResolve searchHash d time s =
      addLog "Query returned null. Invalid ID." "error" time
        { s with verifyError := some "Credential ID not found on the blockchain." } := by
  simp [verifyResolve, Ledger.get, h, hproto]

/-- The lookup callback of `handleVerify` leaves the component mounted exactly
when it was mounted and the value it looked up does not throw as an updater. -/
theorem verifyResolve_mounted (searchHash : String) (d : Ledger) (time : String)
    (s : AppState) :
    (verifyResolve searchHash d time s).mounted =
      (s.mounted &&
        !(match Ledger.get d searchHash with
          | some v => updaterThrows v s.verificationResult
          | none => false)) := by
  unfold verifyResolve
  cases hget : Ledger.get d searchHash with
  | none => simp [addLog]
  | some v =>
    by_cases ht : updaterThrows v s.verificationResult = true
    · simp [ht]
    · simp [ht, addLog]

/-- On the empty ledger the verify form is submitted with
`searchHash = "valueOf"`.  The lookup yields the function
`Object.prototype.valueOf`; React calls it as an updater, it throws, and `App`
is removed: the log holds the entry of the submission only and no result is
set. -/
theorem verify_function_key_unmounts :
    (verifyTransaction "10:00:00 AM" envAnn
      (run AppState.init [Event.setSearchHash "valueOf"])).mounted = false ∧
    (verifyTransaction "10:00:00 AM" envAnn
      (run AppState.init [Event.setSearchHash "valueOf"])).verificationResult = none ∧
    (verifyTransaction "10:00:00 AM" envAnn
      (run AppState.init [Event.setSearchHash "valueOf"])).logs.length = 1 := by
  decide

/-! ## Claims on the ledger and on `handleVerify` -/

/-- C3, counterexample.  Ann's record is committed under `idAnn`; the later
commit for Hana computes the same identifier and takes its place, and a verify
transaction with `searchHash = idAnn` submitted after that shows Hana's
record, not the record that was committed for Ann. -/
theorem verify_after_collision :
    committed (run AppState.init issueAnn) (Event.timeout 0 envAnn) = some (idAnn, recordAnn) ∧
    (verifyTransaction "10:06:00 AM" envOmar
      (run afterAnn (issueHana ++ [Event.timeout 0 envHana, Event.setSearchHash idAnn]))
      ).verificationResult = some (JSValue.record recordHana) ∧
    recordHana ≠ recordAnn := by
  decide

/-- C3, amended.  Round trip: let an issue commit `e` insert the record `rec`
under the identifier `r`, and let `later` be any sequence of events after it in
which no commit computes the identifier `r` again, leading to the state `s2`.
Then `r` still maps to `rec` in the ledger of `s2`; a verify submitted in `s2`
with `searchHash = r` starts the lookup on that ledger; and in whatever state
`s3` the lookup runs, it takes the found branch: `verificationResult` is the
record `rec`, field by field, `highlightedBlockHash` is `r` and `verifyError`
is not set. -/
theorem verify_round_trip (s : AppState) (e : Event) (later : List Event) (r : String)
    (rec : CredentialRecord) (s2 s3 : AppState) (time : String) (env : CommitEnv)
    (hcommit : committed s e = some (r, rec))
    (hfresh : r ∉ (commits (step s e) later).map Prod.fst)
    (hs2 : s2 = run (step s e) later) :
    Ledger.own s2.blockchainData r = some rec ∧
    (run s2 [Event.setSearchHash r, Event.submitVerify time]).timers
        = s2.timers ++ [Timer.verify r s2.blockchainData] ∧
    (Timer.fire (Timer.verify r s2.blockchainData) env s3).verificationResult
        = some (JSValue.record rec) ∧
    (Timer.fire (Timer.verify r s2.blockchainData) env s3).highlightedBlockHash = some r ∧
    (Timer.fire (Timer.verify r s2.blockchainData) env s3).verifyError = s3.verifyError := by
  have h0 : Ledger.own (step s e).blockchainData r = some rec := by
    rw [step_blockchainData_of_committed s e r rec hcommit]
    exact Ledger.own_set_same _ _ _
  have h2 : Ledger.own s2.blockchainData r = some rec := by
    rw [hs2]
    exact run_own later (step s e) r rec h0 hfresh
  have hr : r ≠ "" := by
    obtain ⟨k, env', n, i, em, c, inst, d, _, _, hrid, _⟩ := committed_eq_some s e r rec hcommit
    rw [hrid]
    exact mockHash_ne_empty _ _
  refine ⟨h2, ?_, ?_, ?_, ?_⟩
  · simp [run, step, handleVerify, hr, addLog]
  · simp [Timer.fire, verifyResolve_found _ _ _ _ rec h2, addLog]
  · simp [Timer.fire, verifyResolve_found _ _ _ _ rec h2, addLog]
  · simp [Timer.fire, verifyResolve_found _ _ _ _ rec h2, addLog]

/-- An instance of the amended C3: Ann's record after Omar's commit. -/
theorem verify_round_trip_witness :
    Ledger.own (run afterAnn (issueOmar ++ [Event.timeout 0 envOmar])).blockchainData idAnn
        = some recordAnn ∧
    (Timer.fire
      (Timer.verify idAnn (run afterAnn (issueOmar ++ [Event.timeout 0 envOmar])).blockchainData)
      envOmar AppState.init).verificationResult = some (JSValue.record recordAnn) :=
  have h := verify_round_trip (run AppState.init issueAnn) (Event.timeout 0 envAnn)
    (issueOmar ++ [Event.timeout 0 envOmar]) idAnn recordAnn
    (run afterAnn (issueOmar ++ [Event.timeout 0 envOmar])) AppState.init "10:12:00 AM" envOmar
    (by decide) (by decide) (by decide)
  ⟨h.1, h.2.2.1⟩

/-- C4, counterexample.  Three issue transactions from the empty ledger, each
committed before the next is submitted; the second commit computes the
identifier of the first.  The third record receives 10246, the number of the
second, not 10245 + 2, and after the second commit the ledger has one
record. -/
theorem blockNumber_after_collision :
    (commits AppState.init threeIssues).map (fun p => p.2.blockNumber) = [10245, 10246, 10246] ∧
    (run AppState.init
      (issueAnn ++ [Event.timeout 0 envAnn] ++ issueHana ++ [Event.timeout 0 envHana])
      ).blockchainData.length = 1 := by
  decide

/-- C4, amended.  Monotonic numbering: for every sequence of events from the
initial state in which the commits compute pairwise different identifiers, the
ledger holds exactly the committed records in the order of their commits, and
the commit at position `n` of that order (counted from 0, so the N-th commit is
`n = N - 1`) receives `blockNumber = 10245 + n`. -/
theorem blockNumber_monotonic (evs : List Event)
    (hfresh : ((commits AppState.init evs).map Prod.fst).Nodup) :
    (run AppState.init evs).blockchainData = commits AppState.init evs ∧
    ∀ n p, (commits AppState.init evs)[n]? = some p → p.2.blockNumber = 10245 + n := by
  have h := commits_blockNumber evs AppState.init Inv.init (by simpa [AppState.init, Ledger.keys] using hfresh)
  simpa [AppState.init] using h

/-- Scenario 4 of the specification as an instance of the amended C4. -/
theorem blockNumber_monotonic_witness :
    (run AppState.init annThenOmar).blockchainData = commits AppState.init annThenOmar ∧
    (run AppState.init annThenOmar).blockchainData.map (fun p => p.2.blockNumber)
      = [10245, 10246] :=
  ⟨(blockNumber_monotonic annThenOmar (by decide)).1, by decide⟩

/-- C5, counterexample.  Before the commit for Hana the identifier `idAnn`
maps to Ann's record; the commit computes `idAnn` again and afterwards `idAnn`
maps to Hana's record: the committed record of Ann has been replaced. -/
theorem commit_replaces_record :
    Ledger.own (run afterAnn issueHana).blockchainData idAnn = some recordAnn ∧
    Ledger.own (step (run afterAnn issueHana) (Event.timeout 0 envHana)).blockchainData idAnn
      = some recordHana ∧
    recordHana ≠ recordAnn := by
  decide

/-- C5, amended.  Append-only ledger: a record identifier `r` present in the
ledger is still present, with the same record, after `handleIssue`, after
`handleVerify`, after `addLog`; after the lookup callback of `handleVerify` and
after any event of the component whenever the component is still mounted
afterwards (the lookup callback leaves a mounted component mounted unless the
value it looked up throws as a state updater); and after the commit callback
of `handleIssue` whenever the identifier it computes is not `r`. -/
theorem ledger_append_only (s : AppState) (r : String) (rec : CredentialRecord)
    (h : Ledger.own s.blockchainData r = some rec) :
    (∀ time, Ledger.own (handleIssue time s).blockchainData r = some rec) ∧
    (∀ time, Ledger.own (handleVerify time s).blockchainData r = some rec) ∧
    (∀ searchHash d time, (verifyResolve searchHash d time s).mounted = true →
      Ledger.own (verifyResolve searchHash d time s).blockchainData r = some rec) ∧
    (∀ searchHash d time, s.mounted = true →
      (∀ v, Ledger.get d searchHash = some v →
        updaterThrows v s.verificationResult = false) →
      (verifyResolve searchHash d time s).mounted = true) ∧
    (∀ message type time, Ledger.own (addLog message type time s).blockchainData r = some rec) ∧
    (∀ n i em c inst d env, commitId n i c env ≠ r →
      Ledger.own (issueCommit n i em c inst d env s).blockchainData r = some rec) ∧
    (∀ e, (∀ p, committed s e = some p → p.1 ≠ r) → (step s e).mounted = true →
      Ledger.own (step s e).blockchainData r = some rec) := by
  refine ⟨?_, ?_, ?_, ?_, ?_, ?_, ?_⟩
  · intro time
    rw [handleIssue_blockchainData]
    exact h
  · intro time
    rw [handleVerify_blockchainData]
    exact h
  · intro searchHash d time _
    rw [verifyResolve_blockchainData]
    exact h
  · intro searchHash d time hm hv
    rw [verifyResolve_mounted, hm]
    cases hget : Ledger.get d searchHash with
    | none => rfl
    | some v => simp [hv v hget]
  · intro message type time
    exact h
  · intro n i em c inst d env hne
    simp only [issueCommit, addLog]
    rw [Ledger.own_set_ne _ _ _ _ hne]
    exact h
  · intro e hne _
    exact step_own s e r rec h hne

/-- An instance of the amended C5: Omar's commit leaves Ann's record alone, and
so does a lookup of Ann's identifier. -/
theorem ledger_append_only_witness :
    Ledger.own (step (run afterAnn issueOmar) (Event.timeout 0 envOmar)).blockchainData idAnn
      = some recordAnn ∧
    Ledger.own
      (verifyResolve idAnn afterAnn.blockchainData "10:01:01 AM" afterAnn).blockchainData idAnn
      = some recordAnn :=
  ⟨(ledger_append_only (run afterAnn issueOmar) idAnn recordAnn (by decide)).2.2.2.2.2.2
      (Event.timeout 0 envOmar) (by decide) (by decide),
   (ledger_append_only afterAnn idAnn recordAnn (by decide)).2.2.1
      idAnn afterAnn.blockchainData "10:01:01 AM" (by decide)⟩

/-- C6, failing input.  On the empty ledger the verify form is submitted with
`searchHash = "__proto__"`, which is not the identifier of any record.  The
lookup `blockchainData[searchHash]` yields the inherited `Object.prototype`,
so the found branch runs: `verificationResult` is set, `verifyError` stays
null, the key is highlighted and the entry put in front of the log is of type
success. -/
theorem verify_inherited_key :
    Ledger.own (run AppState.init [Event.setSearchHash "__proto__"]).blockchainData "__proto__"
      = none ∧
    (verifyTransaction "10:00:00 AM" envAnn
      (run AppState.init [Event.setSearchHash "__proto__"])).verificationResult
      = some (JSValue.inherited "__proto__") ∧
    (verifyTransaction "10:00:00 AM" envAnn
      (run AppState.init [Event.setSearchHash "__proto__"])).verifyError = none ∧
    (verifyTransaction "10:00:00 AM" envAnn
      (run AppState.init [Event.setSearchHash "__proto__"])).highlightedBlockHash
      = some "__proto__" ∧
    (verifyTransaction "10:00:00 AM" envAnn
      (run AppState.init [Event.setSearchHash "__proto__"])).logs.head?
      = some { time := "10:00:02 AM", message := "Record found and validated.",
               type := "success" } := by
  decide

/-- C7. Idempotent read: for a ledger that holds the record `rec` under the
identifier `r`, two successive verify transactions with `searchHash = r` both
end with `verificationResult` equal to `rec`, and after each of them the ledger
is the ledger from before (same keys, same records, same size). -/
theorem verify_idempotent (s : AppState) (r : String) (rec : CredentialRecord)
    (time1 time2 : String) (env1 env2 : CommitEnv)
    (hr : r ≠ "") (hs : s.searchHash = r)
    (hown : Ledger.own s.blockchainData r = some rec) :
    (verifyTransaction time1 env1 s).verificationResult = some (JSValue.record rec) ∧
    (verifyTransaction time2 env2 (verifyTransaction time1 env1 s)).verificationResult
      = (verifyTransaction time1 env1 s).verificationResult ∧
    (verifyTransaction time1 env1 s).blockchainData = s.blockchainData ∧
    (verifyTransaction time2 env2 (verifyTransaction time1 env1 s)).blockchainData
      = s.blockchainData := by
  have hne : s.searchHash ≠ "" := by rw [hs]; exact hr
  have hown' : Ledger.own s.blockchainData s.searchHash = some rec := by rw [hs]; exact hown
  have e1 := verifyTransaction_eq time1 env1 s hne
  rw [verifyResolve_found _ _ _ _ rec hown'] at e1
  have hs1 : (verifyTransaction time1 env1 s).searchHash = s.searchHash := by
    rw [e1]; rfl
  have hl1 : (verifyTransaction time1 env1 s).blockchainData = s.blockchainData := by
    rw [e1]; rfl
  have e2 := verifyTransaction_eq time2 env2 (verifyTransaction time1 env1 s) (by rw [hs1]; exact hne)
  rw [verifyResolve_found _ _ _ _ rec (by rw [hs1, hl1]; exact hown')] at e2
  have hv1 : (verifyTransaction time1 env1 s).verificationResult = some (JSValue.record rec) := by
    rw [e1]; rfl
  refine ⟨hv1, ?_, hl1, ?_⟩
  · rw [hv1, e2]; rfl
  · rw [e2]
    exact hl1

/-- An instance of C7 on the ledger that holds Ann's record. -/
theorem verify_idempotent_witness :
    (verifyTransaction "10:01:00 AM" envOmar (run afterAnn [Event.setSearchHash idAnn])
      ).verificationResult = some (JSValue.record recordAnn) ∧
    (verifyTransaction "10:02:00 AM" envHana
      (verifyTransaction "10:01:00 AM" envOmar (run afterAnn [Event.setSearchHash idAnn]))
      ).verificationResult = some (JSValue.record recordAnn) :=
  have h := verify_idempotent (run afterAnn [Event.setSearchHash idAnn]) idAnn recordAnn
    "10:01:00 AM" "10:02:00 AM" envOmar envHana (by decide) (by decide) (by decide)
  ⟨h.1, h.2.1.trans h.1⟩

/-- C8, counterexample.  After Ann's record is committed, one complete verify
transaction with `searchHash = idAnn` makes the log two entries longer, not
one. -/
theorem verify_log_grows_by_two :
    (verifyTransaction "10:01:00 AM" envOmar (run afterAnn [Event.setSearchHash idAnn])
      ).logs.length = (run afterAnn [Event.setSearchHash idAnn]).logs.length + 2 ∧
    (verifyTransaction "10:01:00 AM" envOmar (run afterAnn [Event.setSearchHash idAnn])
      ).logs.length ≠ (run afterAnn [Event.setSearchHash idAnn]).logs.length + 1 := by
  decide

/-- C8, amended.  Two log entries per verify: for a ledger that holds a record
under the identifier `r`, a complete verify transaction with `searchHash = r`
changes the log only by putting two entries in front of it, the info entry of
the submission and, before it, the success entry of the resolution; the log
length grows by 2 and the older entries are the same, in the same order. -/
theorem verify_log_entries (s : AppState) (r : String) (rec : CredentialRecord)
    (time : String) (env : CommitEnv)
    (hr : r ≠ "") (hs : s.searchHash = r)
    (hown : Ledger.own s.blockchainData r = some rec) :
    (verifyTransaction time env s).logs =
      { time := env.time1, message := "Record found and validated.", type := "success" } ::
      { time := time, message := "Querying blockchain state for ID: " ++ r ++ "...",
        type := "info" } :: s.logs ∧
    (verifyTransaction time env s).logs.length = s.logs.length + 2 := by
  have hne : s.searchHash ≠ "" := by rw [hs]; exact hr
  have hown' : Ledger.own s.blockchainData s.searchHash = some rec := by rw [hs]; exact hown
  have e1 := verifyTransaction_eq time env s hne
  rw [verifyResolve_found _ _ _ _ rec hown'] at e1
  rw [e1]
  simp [addLog, hs]

/-- An instance of the amended C8 on the ledger that holds Ann's record. -/
theorem verify_log_entries_witness :
    (verifyTransaction "10:01:00 AM" envOmar (run afterAnn [Event.setSearchHash idAnn])
      ).logs.length = (run afterAnn [Event.setSearchHash idAnn]).logs.length + 2 :=
  (verify_log_entries (run afterAnn [Event.setSearchHash idAnn]) idAnn recordAnn
    "10:01:00 AM" envOmar (by decide) (by decide) (by decide)).2

/-! ## Claims on the event log and on the outcome of a transaction -/

/-- C11. Commit log entries: an issue commit that inserts the record `rec`
under the identifier `r` calls `addLog` three times, each time with type
success: first with the commit confirmation that carries `rec.blockNumber`,
then with the event notice that carries `r`, then with the delivery notice
that carries the submitted email.  The log is newest first, so afterwards its
first three entries are the delivery notice, the event notice and the commit
confirmation, followed by the log from before. -/
theorem commit_log_entries (s : AppState) (k : Nat) (env : CommitEnv) (r : String)
    (rec : CredentialRecord)
    (hcommit : committed s (Event.timeout k env) = some (r, rec)) :
    (step s (Event.timeout k env)).logs =
      (addLog ("Certificate copy sent to " ++ rec.studentEmail) "success" env.time3
        (addLog ("Event Emitted: CredentialIssued(recordId: " ++ r ++ ")") "success" env.time2
          (addLog ("Transaction Mined! Block #" ++ toString rec.blockNumber) "success" env.time1
            s))).logs ∧
    (step s (Event.timeout k env)).logs =
      { time := env.time3, message := "Certificate copy sent to " ++ rec.studentEmail,
        type := "success" } ::
      { time := env.time2, message := "Event Emitted: CredentialIssued(recordId: " ++ r ++ ")",
        type := "success" } ::
      { time := env.time1, message := "Transaction Mined! Block #" ++ toString rec.blockNumber,
        type := "success" } :: s.logs := by
  obtain ⟨k', env', n, i, em, c, inst, d, he, hk, hr, hrec⟩ :=
    committed_eq_some s _ r rec hcommit
  injection he with hk' henv
  subst hk' henv hr hrec
  simp [step, hk, Timer.fire, issueCommit, addLog, commitRecord]

/-- Scenario 1 of the specification as an instance of C11. -/
theorem commit_log_entries_witness :
    (step (run AppState.init issueAnn) (Event.timeout 0 envAnn)).logs.take 3 =
      [{ time := "10:00:02 AM", message := "Certificate copy sent to a@x.edu",
         type := "success" },
       { time := "10:00:02 AM",
         message := "Event Emitted: CredentialIssued(recordId: 0x4711a03b3f9a1c27b4)",
         type := "success" },
       { time := "10:00:02 AM", message := "Transaction Mined! Block #10245",
         type := "success" }] := by
  rw [(commit_log_entries (run AppState.init issueAnn) 0 envAnn idAnn recordAnn (by decide)).2]
  decide

/-- C12. Event log prepend: `addLog(m, s)` yields a log whose first entry has
message `m` and type `s` and whose remaining entries are the log from before,
so the length grows by one, and it changes nothing else of the state; with the
type left out the entry has type info.  A sequence of `addLog` calls therefore
leaves the entries of these calls in front of the old log, the most recent call
first. -/
theorem addLog_prepend (s : AppState) (message type time : String)
    (calls : List (String × Option String × String)) :
    (addLog message type time s).logs
      = { time := time, message := message, type := type } :: s.logs ∧
    (addLog message type time s).logs.length = s.logs.length + 1 ∧
    addLog message type time s
      = { s with logs := { time := time, message := message, type := type } :: s.logs } ∧
    addLogCall message (some type) time s = addLog message type time s ∧
    (addLogCall message none time s).logs
      = { time := time, message := message, type := "info" } :: s.logs ∧
    (calls.foldl (fun st c => addLogCall c.1 c.2.1 c.2.2 st) s).logs
      = (calls.map (fun c =>
          ({ time := c.2.2, message := c.1, type := c.2.1.getD "info" } : LogEntry))).reverse
        ++ s.logs := by
  refine ⟨rfl, by simp [addLog], rfl, rfl, rfl, ?_⟩
  induction calls generalizing s with
  | nil => simp
  | cons c rest ih =>
    rw [List.foldl_cons, ih]
    simp [addLogCall, addLog]

/-- C14. Empty verify input: with `searchHash` empty, `handleVerify` adds no
log entry, leaves the ledger as it is and starts no timer; all it does is to
reset `verifyError`, `verificationResult` and `highlightedBlockHash`. -/
theorem handleVerify_empty (time : String) (s : AppState) (h : s.searchHash = "") :
    (handleVerify time s).logs = s.logs ∧
    (handleVerify time s).blockchainData = s.blockchainData ∧
    (handleVerify time s).timers = s.timers ∧
    handleVerify time s =
      { s with verifyError := none, verificationResult := none,
               highlightedBlockHash := none } := by
  unfold handleVerify
  rw [if_pos h]
  simp

/-- An instance of C14: the verify form is submitted empty after Ann's commit. -/
theorem handleVerify_empty_witness :
    (handleVerify "10:01:00 AM" afterAnn).logs = afterAnn.logs ∧
    (handleVerify "10:01:00 AM" afterAnn).timers = afterAnn.timers :=
  have h := handleVerify_empty "10:01:00 AM" afterAnn (by decide)
  ⟨h.1, h.2.2.1⟩

/-- C15. Issue result: after the commit callback of `handleIssue` has run,
`lastHash` is the identifier under which the ledger now holds the new record,
`lastIssuedEmail` is the email the callback closed over (the one submitted),
the form fields `studentName`, `studentID`, `studentEmail` and `course` are
empty and `institution` is what it was. -/
theorem commit_result (studentName studentID studentEmail course institution : String)
    (blockchainData : Ledger) (env : CommitEnv) (s : AppState) :
    (issueCommit studentName studentID studentEmail course institution blockchainData env s
      ).lastHash = some (commitId studentName studentID course env) ∧
    Ledger.own
      (issueCommit studentName studentID studentEmail course institution blockchainData env s
        ).blockchainData (commitId studentName studentID course env)
      = some (commitRecord studentName studentID studentEmail course institution
          blockchainData env) ∧
    (issueCommit studentName studentID studentEmail course institution blockchainData env s
      ).lastIssuedEmail = studentEmail ∧
    (issueCommit studentName studentID studentEmail course institution blockchainData env s
      ).studentName = "" ∧
    (issueCommit studentName studentID studentEmail course institution blockchainData env s
      ).studentID = "" ∧
    (issueCommit studentName studentID studentEmail course institution blockchainData env s
      ).studentEmail = "" ∧
    (issueCommit studentName studentID studentEmail course institution blockchainData env s
      ).course = "" ∧
    (issueCommit studentName studentID studentEmail course institution blockchainData env s
      ).institution = s.institution := by
  refine ⟨rfl, ?_, rfl, rfl, rfl, rfl, rfl, rfl⟩
  simp only [issueCommit, addLog]
  exact Ledger.own_set_same _ _ _

/-- C18. Found outcome: when the ledger that the lookup callback of
`handleVerify` closed over holds a record under `r`, the callback for
`searchHash = r` sets `highlightedBlockHash` to `r`, does not touch
`verifyError` and puts an entry of type success in front of the log; in a
complete verify transaction `verifyError` is null at the end. -/
theorem verify_found_outcome (d : Ledger) (r : String) (rec : CredentialRecord)
    (time : String) (s : AppState) (hown : Ledger.own d r = some rec) :
    (verifyResolve r d time s).highlightedBlockHash = some r ∧
    (verifyResolve r d time s).verifyError = s.verifyError ∧
    (verifyResolve r d time s).logs
      = { time := time, message := "Record found and validated.", type := "success" }
        :: s.logs ∧
    (∀ env, r ≠ "" → s.searchHash = r → s.blockchainData = d →
      (verifyTransaction time env s).verifyError = none ∧
      (verifyTransaction time env s).highlightedBlockHash = some r ∧
      (verifyTransaction time env s).logs.head?
        = some { time := env.time1, message := "Record found and validated.",
                 type := "success" }) := by
  rw [verifyResolve_found r d time s rec hown]
  refine ⟨rfl, rfl, rfl, ?_⟩
  intro env hr hs hd
  have hne : s.searchHash ≠ "" := by rw [hs]; exact hr
  have hown' : Ledger.own s.blockchainData s.searchHash = some rec := by rw [hs, hd]; exact hown
  rw [verifyTransaction_eq time env s hne, verifyResolve_found _ _ _ _ rec hown']
  simp [addLog, hs]

/-- An instance of C18 on the ledger that holds Ann's record. -/
theorem verify_found_outcome_witness :
    (verifyResolve idAnn afterAnn.blockchainData "10:01:01 AM" afterAnn).highlightedBlockHash
      = some idAnn ∧
    (verifyTransaction "10:01:00 AM" envBen (run afterAnn [Event.setSearchHash idAnn])
      ).verifyError = none :=
  have h := verify_found_outcome afterAnn.blockchainData idAnn recordAnn "10:01:01 AM"
    afterAnn (by decide)
  have h' := verify_found_outcome afterAnn.blockchainData idAnn recordAnn "10:01:00 AM"
    (run afterAnn [Event.setSearchHash idAnn]) (by decide)
  ⟨h.1, (h'.2.2.2 envBen (by decide) (by decide) (by decide)).1⟩

/-- C20. Submissions reset the previous outcome: the state after `handleIssue`
does not depend on the previous `issueError` and `lastHash` (the function
starts by setting both to null); afterwards `lastHash` is null, and
`issueError` is null unless the submission is rejected as a duplicate, which
sets the new message.  The state after `handleVerify` has `verifyError`,
`verificationResult` and `highlightedBlockHash` null.  A submission with a
missing field, and a verify submission with empty input, change nothing but
these cells: ledger and log stay as they are. -/
theorem submissions_reset (time : String) (s : AppState) :
    handleIssue time s = handleIssue time { s with issueError := none, lastHash := none } ∧
    (handleIssue time s).lastHash = none ∧
    ((s.studentName = "" ∨ s.studentID = "" ∨ s.studentEmail = "" ∨ s.course = "" ∨
        s.studentID ∉ Ledger.studentIDs s.blockchainData) →
      (handleIssue time s).issueError = none) ∧
    ((s.studentName = "" ∨ s.studentID = "" ∨ s.studentEmail = "" ∨ s.course = "") →
      handleIssue time s = { s with issueError := none, lastHash := none }) ∧
    handleVerify time s
      = handleVerify time { s with verifyError := none, verificationResult := none,
                                   highlightedBlockHash := none } ∧
    (handleVerify time s).verifyError = none ∧
    (handleVerify time s).verificationResult = none ∧
    (handleVerify time s).highlightedBlockHash = none ∧
    (s.searchHash = "" →
      handleVerify time s = { s with verifyError := none, verificationResult := none,
                                     highlightedBlockHash := none }) := by
  have hmissing : (s.studentName = "" ∨ s.studentID = "" ∨ s.studentEmail = "" ∨ s.course = "") →
      handleIssue time s = { s with issueError := none, lastHash := none } := by
    intro h
    have hfields : s.studentName = "" ∨ s.course = "" ∨ s.studentID = "" ∨ s.studentEmail = "" := by
      rcases h with h | h | h | h <;> simp [h]
    unfold handleIssue
    rw [if_pos hfields]
  refine ⟨rfl, ?_, ?_, hmissing, rfl, ?_, ?_, ?_, ?_⟩
  · unfold handleIssue
    split
    · rfl
    · split <;> rfl
  · intro h
    rcases h with h | h | h | h | h
    · rw [hmissing (Or.inl h)]
    · rw [hmissing (Or.inr (Or.inl h))]
    · rw [hmissing (Or.inr (Or.inr (Or.inl h)))]
    · rw [hmissing (Or.inr (Or.inr (Or.inr h)))]
    · have hnone := (find_duplicate_eq_none _ _).mpr h
      unfold handleIssue
      split
      · rfl
      · simp only [hnone]
        rfl
  · unfold handleVerify
    split <;> rfl
  · unfold handleVerify
    split <;> rfl
  · unfold handleVerify
    split <;> rfl
  · intro h
    unfold handleVerify
    rw [if_pos h]

/-- Instances of C20: after Ann's commit (`lastHash` is set) a submission of the
cleared issue form resets `lastHash` and leaves the log as it is. -/
theorem submissions_reset_witness :
    afterAnn.lastHash = some idAnn ∧
    (handleIssue "10:01:00 AM" afterAnn).lastHash = none ∧
    (handleIssue "10:01:00 AM" afterAnn).logs = afterAnn.logs :=
  have h := submissions_reset "10:01:00 AM" afterAnn
  ⟨by decide, h.2.1, by rw [h.2.2.2.1 (Or.inl (by decide))]⟩

/-! ## Claims on the records of the ledger -/

theorem Ledger.mem_set (d : Ledger) (k : String) (v : CredentialRecord)
    (p : String × CredentialRecord) (hp : p ∈ Ledger.set d k v) : p ∈ d ∨ p = (k, v) := by
  induction d with
  | nil =>
    simp [Ledger.set] at hp
    exact Or.inr hp
  | cons q rest ih =>
    obtain ⟨k1, v1⟩ := q
    by_cases h : k1 = k
    · rw [show Ledger.set ((k1, v1) :: rest) k v = (k, v) :: rest by simp [Ledger.set, h]] at hp
      rcases List.mem_cons.mp hp with hp | hp
      · exact Or.inr hp
      · exact Or.inl (List.mem_cons_of_mem _ hp)
    · rw [show Ledger.set ((k1, v1) :: rest) k v = (k1, v1) :: Ledger.set rest k v by
        simp [Ledger.set, h]] at hp
      rcases List.mem_cons.mp hp with hp | hp
      · exact Or.inl (List.mem_cons.mpr (Or.inl hp))
      · rcases ih hp with h1 | h1
        · exact Or.inl (List.mem_cons_of_mem _ h1)
        · exact Or.inr h1

theorem step_mem (s : AppState) (e : Event) (p : String × CredentialRecord)
    (hp : p ∈ (step s e).blockchainData) : p ∈ s.blockchainData ∨ committed s e = some p := by
  cases hc : committed s e with
  | none =>
    rw [step_blockchainData_of_not_committed s e hc] at hp
    exact Or.inl hp
  | some q =>
    obtain ⟨r, rec⟩ := q
    rw [step_blockchainData_of_committed s e r rec hc] at hp
    rcases Ledger.mem_set _ _ _ _ hp with h | h
    · exact Or.inl h
    · exact Or.inr (by rw [h])

theorem run_mem (evs : List Event) (s : AppState) (p : String × CredentialRecord)
    (hp : p ∈ (run s evs).blockchainData) : p ∈ s.blockchainData ∨ p ∈ commits s evs := by
  induction evs generalizing s with
  | nil => exact Or.inl hp
  | cons e es ih =>
    rcases ih (step s e) hp with h | h
    · rcases step_mem s e p h with h1 | h1
      · exact Or.inl h1
      · right
        simp [commits, h1]
    · right
      simp [commits, h]

theorem commits_mem (evs : List Event) (s : AppState) (p : String × CredentialRecord)
    (hp : p ∈ commits s evs) : p.2.isValid = true ∧ p.2.issuer = "0x123...abc" := by
  induction evs generalizing s with
  | nil => simp [commits] at hp
  | cons e es ih =>
    simp only [commits, List.mem_append, Option.mem_toList] at hp
    rcases hp with h | h
    · obtain ⟨r, rec⟩ := p
      obtain ⟨k, env, n, i, em, c, inst, d, _, _, _, hrec⟩ :=
        committed_eq_some s e r rec (by simpa using h)
      subst hrec
      exact ⟨rfl, rfl⟩
    · exact ih (step s e) h

theorem run_blockchainData_of_no_commits (evs : List Event) (s : AppState)
    (h : commits s evs = []) : (run s evs).blockchainData = s.blockchainData := by
  induction evs generalizing s with
  | nil => rfl
  | cons e es ih =>
    have h' : (committed s e).toList = [] ∧ commits (step s e) es = [] := by
      simpa [commits] using h
    have hc : committed s e = none := by
      cases hce : committed s e with
      | none => rfl
      | some q => simp [hce] at h'
    have := ih (step s e) h'.2
    rw [step_blockchainData_of_not_committed s e hc] at this
    exact this

theorem handleIssue_accepted (time : String) (s : AppState)
    (hname : s.studentName ≠ "") (hid : s.studentID ≠ "") (hemail : s.studentEmail ≠ "")
    (hcourse : s.course ≠ "") (hfresh : s.studentID ∉ Ledger.studentIDs s.blockchainData) :
    handleIssue time s =
      { s with
        issueError := none
        lastHash := none
        isProcessing := true
        logs := { time := time
                  message := "Initiating transaction: issueCredential(\"" ++ s.studentName ++
                    "\", \"" ++ s.studentID ++ "\")..."
                  type := "info" } :: s.logs
        timers := s.timers ++
          [Timer.issue s.studentName s.studentID s.studentEmail s.course s.institution
            s.blockchainData] } := by
  have hfields : ¬ (s.studentName = "" ∨ s.course = "" ∨ s.studentID = "" ∨ s.studentEmail = "") := by
    simp [hname, hid, hemail, hcourse]
  have hnone := (find_duplicate_eq_none _ _).mpr hfresh
  unfold handleIssue
  rw [if_neg hfields]
  simp only [hnone]
  rfl

/-- C13, counterexample.  Ann, Ben and Hana are committed in this order, and
Hana's commit computes the identifier of Ann's record.  The list `blocks` then
has two elements, Hana's record under `idAnn` first and Ben's record second:
Ann's record is not listed, and Hana's stands before Ben's although it was
committed after it. -/
theorem blocks_after_collision :
    (commits AppState.init annBenHana).map (fun p => p.2.studentID) = ["S1", "S3", "S2"] ∧
    (blocks (run AppState.init annBenHana).blockchainData).map (fun b => (b.hash, b.studentID))
      = [(idAnn, "S2"), ("0x124180bec5d20e8a61", "S3")] := by
  decide

/-- C13, amended.  Insertion order: for every sequence of events from the
initial state in which the commits compute pairwise different identifiers, the
list `blocks` derived from the ledger enumerates the committed records in the
order of their commits, each with its own identifier as `hash`. -/
theorem blocks_insertion_order (evs : List Event)
    (hfresh : ((commits AppState.init evs).map Prod.fst).Nodup) :
    blocks (run AppState.init evs).blockchainData =
      (commits AppState.init evs).map
        (fun p => ({ toCredentialRecord := p.2, hash := p.1 } : Block)) := by
  have h := commits_blockNumber evs AppState.init Inv.init
    (by simpa [AppState.init, Ledger.keys] using hfresh)
  have h1 : (run AppState.init evs).blockchainData = commits AppState.init evs := by
    simpa [AppState.init] using h.1
  rw [h1]
  rfl

/-- Scenario 4 of the specification as an instance of the amended C13. -/
theorem blocks_insertion_order_witness :
    (blocks (run AppState.init annThenOmar).blockchainData).map (fun b => (b.hash, b.studentID))
      = [(idAnn, "S1"), ("0x5ebc56519b04e17d2a", "S3")] := by
  rw [blocks_insertion_order annThenOmar (by decide)]
  decide

/-- C16. Record contents: a submission that passes the tests of `handleIssue`
starts a commit callback that holds the submitted values; when the callback
runs, in whatever state, the record it stores under the new identifier has
`studentName`, `studentID`, `studentEmail`, `courseName` and `institution`
equal to the submitted values, `issuer` equal to `0x123...abc` and `isValid`
true.  Hence every record of every ledger reached from the initial state has
`isValid` true and this `issuer`. -/
theorem record_contents (time : String) (s : AppState) (env : CommitEnv) (s' : AppState)
    (hname : s.studentName ≠ "") (hid : s.studentID ≠ "") (hemail : s.studentEmail ≠ "")
    (hcourse : s.course ≠ "") (hfresh : s.studentID ∉ Ledger.studentIDs s.blockchainData) :
    (handleIssue time s).timers = s.timers ++
      [Timer.issue s.studentName s.studentID s.studentEmail s.course s.institution
        s.blockchainData] ∧
    Ledger.own
      (Timer.fire
        (Timer.issue s.studentName s.studentID s.studentEmail s.course s.institution
          s.blockchainData) env s').blockchainData
      (commitId s.studentName s.studentID s.course env)
      = some
        { studentName := s.studentName
          studentID := s.studentID
          studentEmail := s.studentEmail
          courseName := s.course
          institution := s.institution
          issueDate := env.issueDate
          issuer := "0x123...abc"
          isValid := true
          blockNumber := s.blockchainData.length + 10245 } ∧
    (∀ evs p, p ∈ (run AppState.init evs).blockchainData →
      p.2.isValid = true ∧ p.2.issuer = "0x123...abc") := by
  refine ⟨?_, ?_, ?_⟩
  · rw [handleIssue_accepted time s hname hid hemail hcourse hfresh]
  · simp only [Timer.fire, issueCommit, addLog]
    rw [Ledger.own_set_same]
    simp [commitRecord, Ledger.keys]
  · intro evs p hp
    rcases run_mem evs AppState.init p hp with h | h
    · simp [AppState.init] at h
    · exact commits_mem evs AppState.init p h

/-- Scenario 1 of the specification as an instance of C16. -/
theorem record_contents_witness :
    Ledger.own
      (Timer.fire (Timer.issue "Ann" "S1" "a@x.edu" "CS" "Blockchain Institute of Technology" [])
        envAnn (run AppState.init issueAnn)).blockchainData idAnn = some recordAnn :=
  (record_contents "10:00:00 AM"
    (run AppState.init
      [Event.setStudentName "Ann", Event.setStudentID "S1", Event.setStudentEmail "a@x.edu",
       Event.setCourse "CS"])
    envAnn (run AppState.init issueAnn)
    (by decide) (by decide) (by decide) (by decide) (by decide)).2.1

/-- C17. Pending lifecycle: a submission with the four required fields
non-empty and no record carrying its `studentID` sets `isProcessing`, puts
exactly one entry of type info in front of the log, leaves the ledger as it is
and starts the commit timer; no later event other than an issue commit changes
the ledger.  When the commit callback runs, in whatever state, it writes
exactly one record into the ledger (the ledger afterwards is the ledger from
before with the new record stored under the new identifier, every other
identifier keeps its record, and a new identifier makes the ledger one record
longer) and sets `isProcessing` to false. -/
theorem issue_pending_lifecycle (time : String) (s : AppState) (env : CommitEnv)
    (s' : AppState)
    (hname : s.studentName ≠ "") (hid : s.studentID ≠ "") (hemail : s.studentEmail ≠ "")
    (hcourse : s.course ≠ "") (hfresh : s.studentID ∉ Ledger.studentIDs s.blockchainData) :
    (handleIssue time s).isProcessing = true ∧
    (handleIssue time s).logs =
      { time := time
        message := "Initiating transaction: issueCredential(\"" ++ s.studentName ++
          "\", \"" ++ s.studentID ++ "\")..."
        type := "info" } :: s.logs ∧
    (handleIssue time s).blockchainData = s.blockchainData ∧
    (handleIssue time s).timers = s.timers ++
      [Timer.issue s.studentName s.studentID s.studentEmail s.course s.institution
        s.blockchainData] ∧
    (∀ evs, commits (handleIssue time s) evs = [] →
      (run (handleIssue time s) evs).blockchainData = s.blockchainData) ∧
    (Timer.fire
      (Timer.issue s.studentName s.studentID s.studentEmail s.course s.institution
        s.blockchainData) env s').blockchainData
      = Ledger.set s'.blockchainData (commitId s.studentName s.studentID s.course env)
          (commitRecord s.studentName s.studentID s.studentEmail s.course s.institution
            s.blockchainData env) ∧
    (∀ k, k ≠ commitId s.studentName s.studentID s.course env →
      Ledger.own
        (Timer.fire
          (Timer.issue s.studentName s.studentID s.studentEmail s.course s.institution
            s.blockchainData) env s').blockchainData k
        = Ledger.own s'.blockchainData k) ∧
    (commitId s.studentName s.studentID s.course env ∉ Ledger.keys s'.blockchainData →
      (Timer.fire
        (Timer.issue s.studentName s.studentID s.studentEmail s.course s.institution
          s.blockchainData) env s').blockchainData
        = s'.blockchainData ++
          [(commitId s.studentName s.studentID s.course env,
            commitRecord s.studentName s.studentID s.studentEmail s.course s.institution
              s.blockchainData env)]) ∧
    (Timer.fire
      (Timer.issue s.studentName s.studentID s.studentEmail s.course s.institution
        s.blockchainData) env s').isProcessing = false := by
  have hacc := handleIssue_accepted time s hname hid hemail hcourse hfresh
  refine ⟨?_, ?_, ?_, ?_, ?_, rfl, ?_, ?_, rfl⟩
  · rw [hacc]
  · rw [hacc]
  · rw [hacc]
  · rw [hacc]
  · intro evs hevs
    rw [run_blockchainData_of_no_commits evs _ hevs, hacc]
  · intro k hk
    simp only [Timer.fire, issueCommit, addLog]
    exact Ledger.own_set_ne _ _ _ _ (fun h => hk h.symm)
  · intro hnew
    simp only [Timer.fire, issueCommit, addLog]
    exact Ledger.set_of_not_mem _ _ _ hnew

/-- Scenario 1 of the specification as an instance of C17. -/
theorem issue_pending_lifecycle_witness :
    (run AppState.init issueAnn).isProcessing = true ∧
    (run AppState.init issueAnn).blockchainData = [] ∧
    afterAnn.blockchainData = [(idAnn, recordAnn)] ∧
    afterAnn.isProcessing = false :=
  have h := issue_pending_lifecycle "10:00:00 AM"
    (run AppState.init
      [Event.setStudentName "Ann", Event.setStudentID "S1", Event.setStudentEmail "a@x.edu",
       Event.setCourse "CS"])
    envAnn (run AppState.init issueAnn)
    (by decide) (by decide) (by decide) (by decide) (by decide)
  ⟨h.1, h.2.2.1, by decide, by decide⟩

/-! ## The structure of `mockHash` -/

theorem toInt32_range (x : Int) : -2147483648 ≤ toInt32 x ∧ toInt32 x < 2147483648 := by
  unfold toInt32
  omega

theorem toInt32_sub_self (x : Int) : (toInt32 x - x) % 4294967296 = 0 := by
  unfold toInt32
  omega

theorem toInt32_congr (a b : Int) (h : (a - b) % 4294967296 = 0) : toInt32 a = toInt32 b := by
  unfold toInt32
  omega

theorem toInt32_idem (x : Int) : toInt32 (toInt32 x) = toInt32 x := by
  unfold toInt32
  omega

theorem hashStep_eq (hash : Int) (char : Nat) :
    hashStep hash char = toInt32 (31 * hash + char) := by
  unfold hashStep toInt32
  omega

theorem foldl_hashStep_fixed (cs : List Nat) (h : Int) (hh : toInt32 h = h) :
    toInt32 (cs.foldl hashStep h) = cs.foldl hashStep h := by
  induction cs generalizing h with
  | nil => exact hh
  | cons c rest ih =>
    rw [List.foldl_cons]
    exact ih (hashStep h c) (by rw [hashStep_eq, toInt32_idem])

theorem foldl_hashStep_dvd (cs : List Nat) (h : Int) :
    (4294967296 : Int) ∣ cs.foldl hashStep h - (h * 31 ^ cs.length + polySum cs) := by
  induction cs generalizing h with
  | nil => simp [polySum]
  | cons c rest ih =>
    rw [List.foldl_cons]
    have h1 := ih (hashStep h c)
    have h2 : (4294967296 : Int) ∣ hashStep h c - (31 * h + c) := by
      rw [hashStep_eq]
      exact Int.dvd_of_emod_eq_zero (toInt32_sub_self _)
    have h3 : (4294967296 : Int) ∣ (hashStep h c - (31 * h + c)) * 31 ^ rest.length :=
      Dvd.dvd.mul_right h2 _
    have h4 := dvd_add h1 h3
    have e : rest.foldl hashStep (hashStep h c) - (hashStep h c * 31 ^ rest.length + polySum rest)
        + (hashStep h c - (31 * h + c)) * 31 ^ rest.length
        = rest.foldl hashStep (hashStep h c)
          - (h * 31 ^ (c :: rest).length + polySum (c :: rest)) := by
      simp only [polySum, List.length_cons, pow_succ]
      ring
    rw [e] at h4
    exact h4

theorem hashLoop_eq (str : String) : hashLoop str = toInt32 (polySum (charCodes str)) := by
  unfold hashLoop
  rw [← foldl_hashStep_fixed (charCodes str) 0 (by decide)]
  apply toInt32_congr
  have h := foldl_hashStep_dvd (charCodes str) 0
  simp only [zero_mul, zero_add] at h
  exact Int.emod_eq_zero_of_dvd h

theorem digitChar_hex :
    ∀ m, m < 16 → isLowerHex (Nat.digitChar m) = true ∧ hexDigitValue (Nat.digitChar m) = m ∧
      (m ≠ 0 → Nat.digitChar m ≠ '0') := by
  decide

theorem toDigitsCore_hex (fuel : Nat) :
    ∀ n ds, n < fuel → ∃ l, Nat.toDigitsCore 16 fuel n ds = l ++ ds ∧
      (∀ c ∈ l, isLowerHex c = true) ∧
      l.foldl (fun acc c => 16 * acc + hexDigitValue c) 0 = n ∧
      l ≠ [] ∧ (n ≠ 0 → l.head? ≠ some '0') := by
  induction fuel with
  | zero => intro n ds h; omega
  | succ fuel ih =>
    intro n ds hn
    have hd := digitChar_hex (n % 16) (Nat.mod_lt _ (by decide))
    by_cases hq : n / 16 = 0
    · have hlt : n < 16 := by omega
      have hmod : n % 16 = n := Nat.mod_eq_of_lt hlt
      rw [hmod] at hd
      refine ⟨[Nat.digitChar n], ?_, ?_, ?_, ?_, ?_⟩
      · simp [Nat.toDigitsCore, hq, hmod]
      · intro c hc
        rw [List.mem_singleton.mp hc]
        exact hd.1
      · simp [hd.2.1]
      · simp
      · intro hn0
        simpa using hd.2.2 hn0
    · obtain ⟨l, hl, hall, hval, hne, hhead⟩ :=
        ih (n / 16) (Nat.digitChar (n % 16) :: ds) (by omega)
      refine ⟨l ++ [Nat.digitChar (n % 16)], ?_, ?_, ?_, ?_, ?_⟩
      · simp [Nat.toDigitsCore, hq, hl]
      · intro c hc
        rcases List.mem_append.mp hc with h | h
        · exact hall c h
        · rw [List.mem_singleton.mp h]
          exact hd.1
      · rw [List.foldl_append, hval]
        simp only [List.foldl_cons, List.foldl_nil, hd.2.1]
        omega
      · simp
      · intro _
        cases l with
        | nil => exact absurd rfl hne
        | cons a rest => simpa using hhead hq

theorem toHex_spec (n : Nat) :
    (∀ c ∈ (toHex n).toList, isLowerHex c = true) ∧ hexValue (toHex n) = n ∧
      toHex n ≠ "" ∧ (n ≠ 0 → (toHex n).toList.head? ≠ some '0') := by
  obtain ⟨l, hl, hall, hval, hne, hhead⟩ := toDigitsCore_hex (n + 1) n [] (by omega)
  have e : toHex n = String.mk l := by
    unfold toHex Nat.toDigits
    rw [hl, List.append_nil]
  rw [e]
  refine ⟨hall, hval, ?_, hhead⟩
  intro h
  exact hne (congrArg String.data h)

theorem mockHash_suffix_injective (str r1 r2 : String)
    (h : mockHash str r1 = mockHash str r2) : r1 = r2 := by
  unfold mockHash at h
  have hd := congrArg String.data h
  simp only [String.data_append] at hd
  exact String.ext (List.append_cancel_left hd)

/-- C19. Identifier structure: `mockHash(s)` is `0x`, then the hexadecimal
digits of `|h|`, then the random suffix `r`, where `h` is the sum of
`c_i * 31 ^ (n - 1 - i)` over the UTF-16 code units of `s`, wrapped to a signed
32-bit integer (`h` lies between `-2 ^ 31` and `2 ^ 31 - 1` and differs from the
sum by a multiple of `2 ^ 32`); one turn of the loop maps `hash` to
`31 * hash + char` wrapped in the same way; the hexadecimal digits are
lowercase, denote the number and have no leading zero; the part in front of
`r` is a function of `s` alone, and for a fixed `s` two different suffixes give
two different identifiers.  `mockHash` is a total function, so every input
has a result. -/
theorem mockHash_structure (str random : String) :
    mockHash str random
      = "0x" ++ toHex (toInt32 (polySum (charCodes str))).natAbs ++ random ∧
    (-2147483648 ≤ toInt32 (polySum (charCodes str)) ∧
      toInt32 (polySum (charCodes str)) < 2147483648 ∧
      (toInt32 (polySum (charCodes str)) - polySum (charCodes str)) % 4294967296 = 0) ∧
    (∀ (hash : Int) (char : Nat), hashStep hash char = toInt32 (31 * hash + char)) ∧
    (∀ n, (∀ c ∈ (toHex n).toList, isLowerHex c = true) ∧ hexValue (toHex n) = n ∧
      toHex n ≠ "" ∧ (n ≠ 0 → (toHex n).toList.head? ≠ some '0')) ∧
    (∀ r1 r2, r1 ≠ r2 → mockHash str r1 ≠ mockHash str r2) := by
  refine ⟨?_, ⟨(toInt32_range _).1, (toInt32_range _).2, toInt32_sub_self _⟩, hashStep_eq,
    toHex_spec, ?_⟩
  · unfold mockHash
    rw [hashLoop_eq]
  · intro r1 r2 hne h
    exact hne (mockHash_suffix_injective str r1 r2 h)

end Credentia
